import Mathlib

/-!
Verification of the execnet `gateway_base.py` core: the cross-python
serializer/unserializer (opcode wire format), the write-on-success framing
discipline, and the channel state machine (close / receive / setcallback /
finalization / STATUS handling).

Python byte strings are modelled as `List Nat` (each element a byte value),
Python `int` as `Int`, Python `str` as its list of unicode code points, and
Python `float` as its IEEE-754 64-bit big-endian bit pattern (`struct.pack`
and `struct.unpack` with format `"!d"` are inverse bijections on bit
patterns, which is what the wire format transports).
-/

/-! ## Big-endian fixed-width byte encoding (struct.pack / struct.unpack) -/

/-- Big-endian base-256 encoding of `n` into exactly `w` bytes
(the payload produced by `struct.pack` for unsigned width-`w` values;
higher bits beyond `w` bytes are truncated, as in two-complement packing). -/
def toBE : Nat → Nat → List Nat
  | 0, _ => []
  | w + 1, n => toBE w (n / 256) ++ [n % 256]

/-- Big-endian base-256 value of a byte list (`struct.unpack` on `w` bytes). -/
def fromBE (l : List Nat) : Nat := l.foldl (fun a b => a * 256 + b) 0

theorem toBE_length (w n : Nat) : (toBE w n).length = w := by
  induction w generalizing n with
  | zero => rfl
  | succ w ih => simp [toBE, ih]

theorem fromBE_append_last (l : List Nat) (b : Nat) :
    fromBE (l ++ [b]) = fromBE l * 256 + b := by
  simp [fromBE, List.foldl_append]

theorem fromBE_toBE (w n : Nat) : fromBE (toBE w n) = n % 256 ^ w := by
  induction w generalizing n with
  | zero => simp [toBE, fromBE, Nat.mod_one]
  | succ w ih =>
      rw [toBE, fromBE_append_last, ih]
      have h : 256 ^ (w + 1) = 256 * 256 ^ w := by ring
      rw [h, Nat.mod_mul]
      ring

/-- The `FOUR_BYTE_INT_MAX` constant of `gateway_base.py` (2**31 - 1). -/
def FOUR_BYTE_INT_MAX : Int := 2147483647

/-- Byte payload of `struct.pack("!i", i)`: the two-complement 32-bit
big-endian representation.  `struct.pack` itself raises for out-of-range
values; that range check is done by the callers in this model
(see `Serializer.write_int4`). -/
def encodeInt4 (i : Int) : List Nat := toBE 4 (i % 4294967296).toNat

/-- Value of `struct.unpack("!i", b)`: signed 32-bit big-endian. -/
def decodeInt4 (b : List Nat) : Int :=
  let u := fromBE b
  if 2147483648 ≤ u then (u : Int) - 4294967296 else (u : Int)

theorem encodeInt4_length (i : Int) : (encodeInt4 i).length = 4 := toBE_length 4 _

theorem decodeInt4_encodeInt4 (i : Int)
    (hlo : -2147483648 ≤ i) (hhi : i ≤ 2147483647) :
    decodeInt4 (encodeInt4 i) = i := by
  have hmod : (0 : Int) ≤ i % 4294967296 := Int.emod_nonneg i (by norm_num)
  have hlt : i % 4294967296 < 4294967296 := Int.emod_lt_of_pos i (by norm_num)
  have hcast : ((i % 4294967296).toNat : Int) = i % 4294967296 := Int.toNat_of_nonneg hmod
  have hnat : (i % 4294967296).toNat < 256 ^ 4 := by
    have : ((i % 4294967296).toNat : Int) < 4294967296 := by rw [hcast]; exact hlt
    exact_mod_cast this
  unfold decodeInt4 encodeInt4
  rw [fromBE_toBE, Nat.mod_eq_of_lt hnat]
  by_cases hc : 2147483648 ≤ (i % 4294967296).toNat
  · rw [if_pos hc]
    have hc' : (2147483648 : Int) ≤ i % 4294967296 := by
      rw [← hcast]; exact_mod_cast hc
    rw [hcast]
    omega
  · rw [if_neg hc]
    have hc' : i % 4294967296 < 2147483648 := by
      rw [← hcast]
      have := Nat.lt_of_not_le hc
      exact_mod_cast this
    rw [hcast]
    omega

/-! ## Decimal digits (`str(i)` / `int(s)` for the LONGINT encoding) -/

/-- Fueled decimal-digit extraction (most significant first); the fuel is an
artefact of the shallow embedding, `natDigits` below always supplies enough. -/
def natDigitsF : Nat → Nat → List Nat
  | 0, _ => []
  | fuel + 1, n => if n < 10 then [n] else natDigitsF fuel (n / 10) ++ [n % 10]

/-- Decimal digits of `n`, most significant first (the digits of `str(n)`). -/
def natDigits (n : Nat) : List Nat := natDigitsF (n + 1) n

theorem natDigitsF_eq (fuel n : Nat) (h : n < fuel) :
    natDigitsF fuel n = natDigits n := by
  induction fuel using Nat.strong_induction_on generalizing n with
  | _ fuel ih =>
      match fuel with
      | 0 => omega
      | fuel + 1 =>
          by_cases h10 : n < 10
          · simp [natDigitsF, natDigits, h10]
          · have hdiv : n / 10 < n := Nat.div_lt_self (by omega) (by omega)
            have h1 : natDigitsF fuel (n / 10) = natDigits (n / 10) := by
              apply ih fuel (by omega)
              omega
            have h3 : natDigitsF n (n / 10) = natDigits (n / 10) := by
              apply ih n (by omega)
              omega
            simp only [natDigitsF, natDigits, if_neg h10]
            rw [h1, h3]

theorem natDigits_def (n : Nat) :
    natDigits n = if n < 10 then [n] else natDigits (n / 10) ++ [n % 10] := by
  by_cases h : n < 10
  · simp [natDigits, natDigitsF, h]
  · have hdiv : n / 10 < n := Nat.div_lt_self (by omega) (by omega)
    have h3 : natDigitsF n (n / 10) = natDigits (n / 10) := natDigitsF_eq n (n / 10) hdiv
    conv_lhs => rw [natDigits, natDigitsF]
    rw [h3, if_neg h]

/-- Numeric value of a digit list, most significant first. -/
def decimalValue (ds : List Nat) : Nat := ds.foldl (fun a d => a * 10 + d) 0

theorem decimalValue_append_last (l : List Nat) (d : Nat) :
    decimalValue (l ++ [d]) = decimalValue l * 10 + d := by
  simp [decimalValue, List.foldl_append]

theorem decimalValue_natDigits (n : Nat) : decimalValue (natDigits n) = n := by
  induction n using Nat.strong_induction_on with
  | _ n ih =>
      rw [natDigits_def]
      by_cases h : n < 10
      · simp [decimalValue, h]
      · have hdiv : n / 10 < n := Nat.div_lt_self (by omega) (by omega)
        rw [if_neg h, decimalValue_append_last, ih (n / 10) hdiv]
        omega

theorem natDigits_lt_ten (n : Nat) : ∀ d ∈ natDigits n, d < 10 := by
  induction n using Nat.strong_induction_on with
  | _ n ih =>
      rw [natDigits_def]
      by_cases h : n < 10
      · simp [h]
      · have hdiv : n / 10 < n := Nat.div_lt_self (by omega) (by omega)
        rw [if_neg h]
        intro d hd
        rcases List.mem_append.mp hd with h1 | h2
        · exact ih (n / 10) hdiv d h1
        · simp at h2; omega

theorem natDigits_ne_nil (n : Nat) : natDigits n ≠ [] := by
  rw [natDigits_def]
  by_cases h : n < 10 <;> simp [h]

/-- ASCII bytes of `str(n).encode("ascii")` for a nonnegative integer. -/
def asciiDecimal (n : Nat) : List Nat := (natDigits n).map (· + 48)

/-- Parse an ASCII decimal digit string (the digit part of python `int(s)`):
every byte must be a digit and the string must be nonempty. -/
def parseDigits (bs : List Nat) : Option Nat :=
  if bs ≠ [] ∧ bs.all (fun b => 48 ≤ b ∧ b ≤ 57) then
    some (decimalValue (bs.map (· - 48)))
  else none

/-- Python `int(bytes)` restricted to an optional sign and digits
(this is the shape `load_longint` ever receives from the serializer). -/
def parsePyInt (bs : List Nat) : Option Int :=
  match bs with
  | [] => none
  | b :: ds =>
      if b = 45 then (parseDigits ds).map (fun n => -(n : Int))
      else (parseDigits (b :: ds)).map (fun n => (n : Int))

theorem parseDigits_asciiDecimal (n : Nat) : parseDigits (asciiDecimal n) = some n := by
  have hdig := natDigits_lt_ten n
  have hne := natDigits_ne_nil n
  unfold parseDigits asciiDecimal
  rw [if_pos]
  · congr 1
    have : ((natDigits n).map (· + 48)).map (· - 48) = natDigits n := by
      rw [List.map_map]
      have : ((fun b => b - 48) ∘ (fun d => d + 48)) = (id : Nat → Nat) := by
        funext d; simp
      rw [this, List.map_id]
    rw [this, decimalValue_natDigits]
  · constructor
    · simp [hne]
    · rw [List.all_eq_true]
      intro b hb
      rcases List.mem_map.mp hb with ⟨d, hd, rfl⟩
      have := hdig d hd
      simp
      omega

theorem parsePyInt_asciiDecimal (n : Nat) : parsePyInt (asciiDecimal n) = some (n : Int) := by
  have h48 : ∀ d ∈ natDigits n, d + 48 ≠ 45 := by
    intro d _ h; omega
  have hform := parseDigits_asciiDecimal n
  cases hcase : asciiDecimal n with
  | nil => rw [hcase] at hform; simp [parseDigits] at hform
  | cons b bs =>
      have hb : b ≠ 45 := by
        have : b ∈ asciiDecimal n := by rw [hcase]; exact List.mem_cons_self b bs
        rcases List.mem_map.mp this with ⟨d, hd, rfl⟩
        exact h48 d hd
      rw [hcase] at hform
      simp only [parsePyInt, if_neg hb, hform]
      rfl

/-! ## UTF-8 (python `str.encode("utf-8")` / `bytes.decode("utf-8")`) -/

/-- UTF-8 encoding of one code point; `none` for surrogates (U+D800-U+DFFF)
and values above U+10FFFF, where python `str.encode("utf-8")` raises
`UnicodeEncodeError`. -/
def utf8EncodeChar (c : Nat) : Option (List Nat) :=
  if c < 128 then some [c]
  else if c < 2048 then some [192 + c / 64, 128 + c % 64]
  else if c < 65536 then
    if 55296 ≤ c ∧ c ≤ 57343 then none
    else some [224 + c / 4096, 128 + c / 64 % 64, 128 + c % 64]
  else if c < 1114112 then
    some [240 + c / 262144, 128 + c / 4096 % 64, 128 + c / 64 % 64, 128 + c % 64]
  else none

/-- UTF-8 encoding of a code-point sequence (python `str.encode("utf-8")`). -/
def utf8Encode : List Nat → Option (List Nat)
  | [] => some []
  | c :: cs => do
      let b ← utf8EncodeChar c
      let bs ← utf8Encode cs
      pure (b ++ bs)

/-- Decode one UTF-8 scalar from the front of a byte string, returning the
code point and the remaining bytes.  Strict, like python `bytes.decode("utf-8")`:
rejects bad lead or continuation bytes, overlong forms, surrogates and values
above U+10FFFF. -/
def utf8DecodeOne : List Nat → Option (Nat × List Nat)
  | [] => none
  | b1 :: rest =>
    if b1 < 128 then some (b1, rest)
    else if b1 < 194 then none
    else if b1 < 224 then
      match rest with
      | b2 :: rest2 =>
          if 128 ≤ b2 ∧ b2 < 192 then some ((b1 - 192) * 64 + (b2 - 128), rest2)
          else none
      | [] => none
    else if b1 < 240 then
      match rest with
      | b2 :: b3 :: rest3 =>
          let c := (b1 - 224) * 4096 + (b2 - 128) * 64 + (b3 - 128)
          if (128 ≤ b2 ∧ b2 < 192) ∧ (128 ≤ b3 ∧ b3 < 192) ∧
             2048 ≤ c ∧ ¬(55296 ≤ c ∧ c ≤ 57343) then
            some (c, rest3)
          else none
      | _ => none
    else if b1 < 245 then
      match rest with
      | b2 :: b3 :: b4 :: rest4 =>
          let c := (b1 - 240) * 262144 + (b2 - 128) * 4096 + (b3 - 128) * 64 + (b4 - 128)
          if (128 ≤ b2 ∧ b2 < 192) ∧ (128 ≤ b3 ∧ b3 < 192) ∧ (128 ≤ b4 ∧ b4 < 192) ∧
             65536 ≤ c ∧ c ≤ 1114111 then
            some (c, rest4)
          else none
      | _ => none
    else none

/-- Fueled decoding loop; each step consumes at least one byte, so the
`bs.length` fuel supplied by `utf8Decode` below is always sufficient. -/
def utf8DecodeF : Nat → List Nat → Option (List Nat)
  | _, [] => some []
  | 0, _ :: _ => none
  | fuel + 1, b1 :: rest =>
      match utf8DecodeOne (b1 :: rest) with
      | none => none
      | some (c, rest2) => (utf8DecodeF fuel rest2).map (fun cs => c :: cs)

/-- Strict UTF-8 decoding of a whole byte string (python `bytes.decode("utf-8")`). -/
def utf8Decode (bs : List Nat) : Option (List Nat) := utf8DecodeF bs.length bs

theorem utf8DecodeF_succ (fuel : Nat) (b1 : Nat) (rest : List Nat) :
    utf8DecodeF (fuel + 1) (b1 :: rest) =
      match utf8DecodeOne (b1 :: rest) with
      | none => none
      | some (c, rest2) => (utf8DecodeF fuel rest2).map (fun cs => c :: cs) := by
  rw [utf8DecodeF.eq_def]

theorem utf8DecodeOne_suffix (bs : List Nat) (c : Nat) (rest : List Nat)
    (h : utf8DecodeOne bs = some (c, rest)) : rest.length < bs.length := by
  match bs with
  | [] => exact absurd h (by simp [utf8DecodeOne])
  | b1 :: tl =>
      unfold utf8DecodeOne at h
      dsimp only [] at h
      by_cases h1 : b1 < 128
      · rw [if_pos h1] at h
        obtain ⟨rfl, rfl⟩ : b1 = c ∧ tl = rest := by
          have := Option.some.inj h; exact ⟨congrArg Prod.fst this, congrArg Prod.snd this⟩
        simp
      · rw [if_neg h1] at h
        by_cases h2 : b1 < 194
        · rw [if_pos h2] at h; exact absurd h (by simp)
        · rw [if_neg h2] at h
          by_cases h3 : b1 < 224
          · rw [if_pos h3] at h
            match tl with
            | [] => exact absurd h (by simp)
            | b2 :: tl2 =>
                dsimp only [] at h
                by_cases hc : 128 ≤ b2 ∧ b2 < 192
                · rw [if_pos hc] at h
                  obtain ⟨-, rfl⟩ : _ ∧ tl2 = rest := by
                    have := Option.some.inj h
                    exact ⟨congrArg Prod.fst this, congrArg Prod.snd this⟩
                  simp
                  omega
                · rw [if_neg hc] at h; exact absurd h (by simp)
          · rw [if_neg h3] at h
            by_cases h4 : b1 < 240
            · rw [if_pos h4] at h
              match tl with
              | [] => exact absurd h (by simp)
              | [b2] => exact absurd h (by simp)
              | b2 :: b3 :: tl3 =>
                  dsimp only [] at h
                  split at h
                  · obtain ⟨-, rfl⟩ : _ ∧ tl3 = rest := by
                      have := Option.some.inj h
                      exact ⟨congrArg Prod.fst this, congrArg Prod.snd this⟩
                    simp
                    omega
                  · exact absurd h (by simp)
            · rw [if_neg h4] at h
              by_cases h5 : b1 < 245
              · rw [if_pos h5] at h
                match tl with
                | [] => exact absurd h (by simp)
                | [b2] => exact absurd h (by simp)
                | [b2, b3] => exact absurd h (by simp)
                | b2 :: b3 :: b4 :: tl4 =>
                    dsimp only [] at h
                    split at h
                    · obtain ⟨-, rfl⟩ : _ ∧ tl4 = rest := by
                        have := Option.some.inj h
                        exact ⟨congrArg Prod.fst this, congrArg Prod.snd this⟩
                      simp
                      omega
                    · exact absurd h (by simp)
              · rw [if_neg h5] at h; exact absurd h (by simp)

theorem utf8DecodeF_eq (fuel : Nat) (bs : List Nat) (h : bs.length ≤ fuel) :
    utf8DecodeF fuel bs = utf8Decode bs := by
  induction fuel using Nat.strong_induction_on generalizing bs with
  | _ fuel ih =>
      match bs with
      | [] => match fuel with
        | 0 => rfl
        | fuel + 1 => rfl
      | b1 :: rest =>
          match fuel with
          | 0 => simp at h
          | fuel + 1 =>
              rw [utf8Decode]
              simp only [List.length_cons]
              rw [utf8DecodeF_succ, utf8DecodeF_succ]
              cases hone : utf8DecodeOne (b1 :: rest) with
              | none => rfl
              | some p =>
                  obtain ⟨c, rest2⟩ := p
                  have hlen := utf8DecodeOne_suffix _ _ _ hone
                  simp only [List.length_cons] at hlen h
                  dsimp only []
                  rw [ih fuel (by omega) rest2 (by omega),
                      ih rest.length (by omega) rest2 (by omega)]

/-- One-scalar inversion: decoding right after encoding one character
recovers the character and leaves the rest untouched. -/
theorem utf8DecodeOne_encodeChar (c : Nat) (b : List Nat) (h : utf8EncodeChar c = some b)
    (rest : List Nat) : utf8DecodeOne (b ++ rest) = some (c, rest) := by
  unfold utf8EncodeChar at h
  by_cases h1 : c < 128
  · rw [if_pos h1] at h
    obtain rfl : [c] = b := by injection h
    simp only [List.cons_append, List.nil_append]
    unfold utf8DecodeOne
    dsimp only []
    rw [if_pos h1]
  · rw [if_neg h1] at h
    by_cases h2 : c < 2048
    · rw [if_pos h2] at h
      obtain rfl : [192 + c / 64, 128 + c % 64] = b := by injection h
      simp only [List.cons_append, List.nil_append]
      unfold utf8DecodeOne
      dsimp only []
      rw [if_neg (by omega : ¬(192 + c / 64 < 128))]
      rw [if_neg (by omega : ¬(192 + c / 64 < 194))]
      rw [if_pos (by omega : 192 + c / 64 < 224)]
      rw [if_pos (by omega : 128 ≤ 128 + c % 64 ∧ 128 + c % 64 < 192)]
      rw [(by omega : (192 + c / 64 - 192) * 64 + (128 + c % 64 - 128) = c)]
    · rw [if_neg h2] at h
      by_cases h3 : c < 65536
      · rw [if_pos h3] at h
        by_cases hs : 55296 ≤ c ∧ c ≤ 57343
        · rw [if_pos hs] at h; exact absurd h (by simp)
        · rw [if_neg hs] at h
          obtain rfl : [224 + c / 4096, 128 + c / 64 % 64, 128 + c % 64] = b := by injection h
          simp only [List.cons_append, List.nil_append]
          unfold utf8DecodeOne
          dsimp only []
          rw [if_neg (by omega : ¬(224 + c / 4096 < 128))]
          rw [if_neg (by omega : ¬(224 + c / 4096 < 194))]
          rw [if_neg (by omega : ¬(224 + c / 4096 < 224))]
          rw [if_pos (by omega : 224 + c / 4096 < 240)]
          rw [if_pos (by omega :
            (128 ≤ 128 + c / 64 % 64 ∧ 128 + c / 64 % 64 < 192) ∧
            (128 ≤ 128 + c % 64 ∧ 128 + c % 64 < 192) ∧
            2048 ≤ (224 + c / 4096 - 224) * 4096 + (128 + c / 64 % 64 - 128) * 64 +
              (128 + c % 64 - 128) ∧
            ¬(55296 ≤ (224 + c / 4096 - 224) * 4096 + (128 + c / 64 % 64 - 128) * 64 +
              (128 + c % 64 - 128) ∧
              (224 + c / 4096 - 224) * 4096 + (128 + c / 64 % 64 - 128) * 64 +
              (128 + c % 64 - 128) ≤ 57343))]
          rw [(by omega : (224 + c / 4096 - 224) * 4096 + (128 + c / 64 % 64 - 128) * 64 +
              (128 + c % 64 - 128) = c)]
      · rw [if_neg h3] at h
        by_cases h4 : c < 1114112
        · rw [if_pos h4] at h
          obtain rfl : [240 + c / 262144, 128 + c / 4096 % 64, 128 + c / 64 % 64,
              128 + c % 64] = b := by injection h
          simp only [List.cons_append, List.nil_append]
          unfold utf8DecodeOne
          dsimp only []
          rw [if_neg (by omega : ¬(240 + c / 262144 < 128))]
          rw [if_neg (by omega : ¬(240 + c / 262144 < 194))]
          rw [if_neg (by omega : ¬(240 + c / 262144 < 224))]
          rw [if_neg (by omega : ¬(240 + c / 262144 < 240))]
          rw [if_pos (by omega : 240 + c / 262144 < 245)]
          rw [if_pos (by omega :
            (128 ≤ 128 + c / 4096 % 64 ∧ 128 + c / 4096 % 64 < 192) ∧
            (128 ≤ 128 + c / 64 % 64 ∧ 128 + c / 64 % 64 < 192) ∧
            (128 ≤ 128 + c % 64 ∧ 128 + c % 64 < 192) ∧
            65536 ≤ (240 + c / 262144 - 240) * 262144 + (128 + c / 4096 % 64 - 128) * 4096 +
              (128 + c / 64 % 64 - 128) * 64 + (128 + c % 64 - 128) ∧
            (240 + c / 262144 - 240) * 262144 + (128 + c / 4096 % 64 - 128) * 4096 +
              (128 + c / 64 % 64 - 128) * 64 + (128 + c % 64 - 128) ≤ 1114111)]
          rw [(by omega : (240 + c / 262144 - 240) * 262144 + (128 + c / 4096 % 64 - 128) * 4096 +
              (128 + c / 64 % 64 - 128) * 64 + (128 + c % 64 - 128) = c)]
        · rw [if_neg h4] at h; exact absurd h (by simp)

theorem utf8Decode_utf8Encode (cs : List Nat) (bs : List Nat)
    (h : utf8Encode cs = some bs) : utf8Decode bs = some cs := by
  induction cs generalizing bs with
  | nil =>
      simp only [utf8Encode] at h
      obtain rfl : ([] : List Nat) = bs := by injection h
      rfl
  | cons c cs ih =>
      simp only [utf8Encode, Option.bind_eq_bind, bind, Option.bind] at h
      cases hc : utf8EncodeChar c with
      | none => rw [hc] at h; exact absurd h (by simp)
      | some b =>
          rw [hc] at h
          cases hcs : utf8Encode cs with
          | none => rw [hcs] at h; exact absurd h (by simp)
          | some btl =>
              rw [hcs] at h
              obtain rfl : b ++ btl = bs := by injection h
              have hone := utf8DecodeOne_encodeChar c b hc btl
              have hb : b ≠ [] := by
                intro hnil
                rw [hnil] at hone
                simp only [List.nil_append] at hone
                have := utf8DecodeOne_suffix btl c btl hone
                omega
              match hbb : b, hb with
              | b1 :: btl2, _ =>
                  rw [utf8Decode]
                  simp only [List.cons_append, List.length_cons]
                  rw [utf8DecodeF_succ]
                  rw [List.cons_append] at hone
                  rw [hone]
                  dsimp only []
                  rw [utf8DecodeF_eq _ _ (by simp)]
                  rw [ih btl hcs]
                  rfl

/-! ## The supported value grammar

The values transported by the serializer (python 3 side, `ISPY3` true):
`None`, `bool`, `int`, `float`, `bytes`, `str`, `list`, `dict`, `tuple`,
`set`, `frozenset`, and live `Channel` references (modelled by their id).
Sequences inside values use the mutually-inductive `VList` / `VPairs` so
that all functions over values are plain structural recursion. -/

mutual
inductive Value where
  | none
  | bool (b : Bool)
  | int (i : Int)
  | float (bits : Nat)
  | bytes (bs : List Nat)
  | str (cps : List Nat)
  | list (l : VList)
  | dict (d : VPairs)
  | tup (l : VList)
  | set (l : VList)
  | frozenset (l : VList)
  | channel (id : Int)
inductive VList where
  | nil
  | cons (hd : Value) (tl : VList)
inductive VPairs where
  | nil
  | cons (key : Value) (val : Value) (tl : VPairs)
end

deriving instance DecidableEq for Value
deriving instance DecidableEq for VList
deriving instance DecidableEq for VPairs

def VList.toList : VList → List Value
  | .nil => []
  | .cons x xs => x :: VList.toList xs

def VList.ofList : List Value → VList
  | [] => .nil
  | x :: xs => .cons x (VList.ofList xs)

def VList.length : VList → Nat
  | .nil => 0
  | .cons _ xs => VList.length xs + 1

def VPairs.toList : VPairs → List (Value × Value)
  | .nil => []
  | .cons k v tl => (k, v) :: VPairs.toList tl

def VPairs.ofList : List (Value × Value) → VPairs
  | [] => .nil
  | (k, v) :: tl => .cons k v (VPairs.ofList tl)

def VPairs.keys : VPairs → List Value
  | .nil => []
  | .cons k _ tl => k :: VPairs.keys tl

theorem VList.toList_ofList (l : List Value) : (VList.ofList l).toList = l := by
  induction l with
  | nil => rfl
  | cons x xs ih => simp [VList.ofList, VList.toList, ih]

theorem VList.ofList_toList : ∀ (l : VList), VList.ofList l.toList = l
  | .nil => rfl
  | .cons x xs => by simp [VList.ofList, VList.toList, VList.ofList_toList xs]

theorem VList.length_toList : ∀ (l : VList), l.toList.length = l.length
  | .nil => rfl
  | .cons x xs => by simp [VList.toList, VList.length, VList.length_toList xs]

theorem vpairsToList_ofList (l : List (Value × Value)) : (VPairs.ofList l).toList = l := by
  induction l with
  | nil => rfl
  | cons p tl ih => obtain ⟨k, v⟩ := p; simp [VPairs.ofList, VPairs.toList, ih]

theorem vpairsOfList_toList : ∀ (d : VPairs), VPairs.ofList d.toList = d
  | .nil => rfl
  | .cons k v tl => by simp [VPairs.ofList, VPairs.toList, vpairsOfList_toList tl]

/-! Python hashability of a value: `list`, `dict` and `set` are unhashable;
a `tuple` or `frozenset` is hashable when all its elements are. -/

mutual
def Value.hashable : Value → Bool
  | .list _ => false
  | .dict _ => false
  | .set _ => false
  | .tup l => VList.allHashable l
  | .frozenset l => VList.allHashable l
  | _ => true
def VList.allHashable : VList → Bool
  | .nil => true
  | .cons x xs => Value.hashable x && VList.allHashable xs
end

/-- No two elements of the list are (structurally) equal.  Structural
equality of `Value` stands in for python `==` on the transported values. -/
def noDupValues : List Value → Bool
  | [] => true
  | x :: xs => xs.all (fun y => x ≠ y) && noDupValues xs

/-! Well-formedness of a value as a real python-representable value:
`float` bit patterns fit 64 bits, `set`/`frozenset` elements are distinct
and hashable (a python set cannot hold duplicates or unhashables), and
`dict` keys are distinct and hashable.  These are exactly the properties
that hold by construction for every actual python value and that the
decode-encode round trip relies on. -/

mutual
def Value.wf : Value → Bool
  | .none => true
  | .bool _ => true
  | .int _ => true
  | .float bits => bits < 18446744073709551616
  | .bytes _ => true
  | .str _ => true
  | .channel _ => true
  | .list l => VList.allWf l
  | .tup l => VList.allWf l
  | .set l => noDupValues l.toList && l.toList.all Value.hashable && VList.allWf l
  | .frozenset l => noDupValues l.toList && l.toList.all Value.hashable && VList.allWf l
  | .dict d => noDupValues d.keys && d.keys.all Value.hashable && VPairs.allWf d
def VList.allWf : VList → Bool
  | .nil => true
  | .cons x xs => Value.wf x && VList.allWf xs
def VPairs.allWf : VPairs → Bool
  | .nil => true
  | .cons k v tl => Value.wf k && Value.wf v && VPairs.allWf tl
end

/-! ## Opcode assignment (`_buildopcodes`)

`_buildopcodes` scans `Unserializer.__dict__` for names starting with
`load_`, uppercases the tail, sorts the resulting `(name, func)` pairs and
assigns each name the byte `chr(64 + rank)`. -/

/-- The attribute names of the `Unserializer` class body, in declaration
order (python 3 branch: `load_long = load_int` and `load_longlong =
load_longint` are the `ISPY3` aliases defined right after `load_longint`).
Implicit dunder attributes that never match the `load_` filter are elided. -/
def unserializerClassBodyNames : List String :=
  ["num2func", "py2str_as_py3str", "py3str_as_py2str", "__init__", "load",
   "load_none", "load_true", "load_false", "load_int", "load_longint",
   "load_long", "load_longlong", "load_float", "_read_int4",
   "_read_byte_string", "load_py3string", "load_py2string", "load_bytes",
   "load_unicode", "load_newlist", "load_setitem", "load_newdict",
   "_load_tuple", "load_buildtuple", "load_set", "load_frozenset",
   "load_stop", "load_channel"]

/-- Uppercase one ASCII character (`str.upper` on the `load_` method names,
which are all ASCII). -/
def upperChar (c : Char) : Char :=
  if 97 ≤ c.toNat ∧ c.toNat ≤ 122 then Char.ofNat (c.toNat - 32) else c

/-- Python `name.startswith("load_")`. -/
def startsWithLoad (s : String) : Bool := s.data.take 5 = ['l', 'o', 'a', 'd', '_']

/-- Python `name[5:].upper()` for the ASCII method names. -/
def dropLoadUpper (s : String) : String := String.mk ((s.data.drop 5).map upperChar)

/-- `name[5:].upper()` for each `name` starting with `load_`, in
declaration order. -/
def loadOpNames : List String :=
  (unserializerClassBodyNames.filter startsWithLoad).map dropLoadUpper

/-- Lexicographic code-point comparison (python string `<=` on ASCII names). -/
def charListLe : List Char → List Char → Bool
  | [], _ => true
  | _ :: _, [] => false
  | a :: as, b :: bs =>
      if a.toNat < b.toNat then true
      else if a.toNat = b.toNat then charListLe as bs
      else false

/-- Stable insertion into an ascending list (the `l.sort()` of
`_buildopcodes`; the names are pairwise distinct so the tie-break on the
function component never fires). -/
def insertAlpha (x : String) : List String → List String
  | [] => [x]
  | y :: ys => if charListLe x.data y.data then x :: y :: ys else y :: insertAlpha x ys

/-- Ascending sort of the opcode names (python `list.sort()`). -/
def sortStrings : List String → List String
  | [] => []
  | x :: xs => insertAlpha x (sortStrings xs)

/-- Enumerate the sorted names, assigning `64 + rank` (`chr(64 + i)`). -/
def assignOpcodes (i : Nat) : List String → List (String × Nat)
  | [] => []
  | n :: ns => (n, 64 + i) :: assignOpcodes (i + 1) ns

/-- The opcode table produced by `_buildopcodes`: opcode name to byte. -/
def opcodeTable : List (String × Nat) := assignOpcodes 0 (sortStrings loadOpNames)

/-- Byte of a named opcode (attribute lookup on the `opcode` container). -/
def opcodeFor (name : String) : Nat := ((opcodeTable.lookup name).getD 0)

def opcode.BUILDTUPLE : Nat := opcodeFor "BUILDTUPLE"
def opcode.BYTES : Nat := opcodeFor "BYTES"
def opcode.CHANNEL : Nat := opcodeFor "CHANNEL"
def opcode.FALSE : Nat := opcodeFor "FALSE"
def opcode.FLOAT : Nat := opcodeFor "FLOAT"
def opcode.FROZENSET : Nat := opcodeFor "FROZENSET"
def opcode.INT : Nat := opcodeFor "INT"
def opcode.LONG : Nat := opcodeFor "LONG"
def opcode.LONGINT : Nat := opcodeFor "LONGINT"
def opcode.LONGLONG : Nat := opcodeFor "LONGLONG"
def opcode.NEWDICT : Nat := opcodeFor "NEWDICT"
def opcode.NEWLIST : Nat := opcodeFor "NEWLIST"
def opcode.NONE : Nat := opcodeFor "NONE"
def opcode.PY2STRING : Nat := opcodeFor "PY2STRING"
def opcode.PY3STRING : Nat := opcodeFor "PY3STRING"
def opcode.SET : Nat := opcodeFor "SET"
def opcode.SETITEM : Nat := opcodeFor "SETITEM"
def opcode.STOP : Nat := opcodeFor "STOP"
def opcode.TRUE : Nat := opcodeFor "TRUE"
def opcode.UNICODE : Nat := opcodeFor "UNICODE"

theorem opcodeTable_eval : opcodeTable =
    [("BUILDTUPLE", 64), ("BYTES", 65), ("CHANNEL", 66), ("FALSE", 67),
     ("FLOAT", 68), ("FROZENSET", 69), ("INT", 70), ("LONG", 71),
     ("LONGINT", 72), ("LONGLONG", 73), ("NEWDICT", 74), ("NEWLIST", 75),
     ("NONE", 76), ("PY2STRING", 77), ("PY3STRING", 78), ("SET", 79),
     ("SETITEM", 80), ("STOP", 81), ("TRUE", 82), ("UNICODE", 83)] := by decide

/-! ## Serializer (`Serializer._save` and helpers, python 3 branch) -/

/-- Errors the serializer can raise: `SerializationError` (a
`SerializeError` subclass) with its message, or the `struct.error` escaping
from `struct.pack("!i", i)` on a value below `-2**31` (not a
`SerializationError`). -/
inductive SErr where
  | serialization (msg : String)
  | structError
deriving DecidableEq

/-- Default error message of `_write_int4`
(`"int must be less than %i" % FOUR_BYTE_INT_MAX`). -/
def int4DefaultError : String := "int must be less than 2147483647"

/-- `Serializer._write_int4`: explicit upper-bound check raising
`SerializationError`, then `struct.pack("!i", i)` which itself raises
`struct.error` below `-2**31`. -/
def Serializer.write_int4 (i : Int) (err : String) : Except SErr (List Nat) :=
  if i > FOUR_BYTE_INT_MAX then .error (.serialization err)
  else if i < -2147483648 then .error .structError
  else .ok (encodeInt4 i)

/-- `Serializer._write_byte_sequence`: 4-byte length (checked with message
`"string is too long"`) followed by the raw bytes. -/
def Serializer.write_byte_sequence (bs : List Nat) : Except SErr (List Nat) := do
  let lb ← Serializer.write_int4 bs.length "string is too long"
  .ok (lb ++ bs)

/-- `Serializer._save_integral`: 4-byte branch whenever
`i <= FOUR_BYTE_INT_MAX` (no lower-bound check), else the long opcode with
a length-prefixed ASCII decimal (`str(i).rstrip("L").encode("ascii")`). -/
def Serializer.save_integral (i : Int) (short_op long_op : Nat) : Except SErr (List Nat) :=
  if i ≤ FOUR_BYTE_INT_MAX then do
    let b ← Serializer.write_int4 i int4DefaultError
    .ok (short_op :: b)
  else do
    let b ← Serializer.write_byte_sequence (asciiDecimal i.toNat)
    .ok (long_op :: b)

/-- `Serializer.save_int` (the `_save` dispatch target for every python 3
integer). -/
def Serializer.save_int (i : Int) : Except SErr (List Nat) :=
  Serializer.save_integral i opcode.INT opcode.LONGINT

/-! `Serializer._save` dispatches on the value type; each `save_<type>`
method appends its opcode and payload to the buffer.  The functions below
return the exact byte sequence appended.  `saveListItems` is the
`save_list` loop (`_write_setitem(i, item)` for each index), `saveDictItems`
the `save_dict` loop, and `saveSeq` the element loop of `save_tuple` /
`_write_set`. -/

mutual
def Serializer.saveV : Value → Except SErr (List Nat)
  | .none => .ok [opcode.NONE]
  | .bool b => .ok [if b then opcode.TRUE else opcode.FALSE]
  | .int i => Serializer.save_int i
  | .float bits => .ok (opcode.FLOAT :: toBE 8 bits)
  | .bytes bs => do
      let t ← Serializer.write_byte_sequence bs
      .ok (opcode.BYTES :: t)
  | .str cps =>
      match utf8Encode cps with
      | none => .error (.serialization "strings must be utf-8 encodable")
      | some bs => do
          let t ← Serializer.write_byte_sequence bs
          .ok (opcode.PY3STRING :: t)
  | .channel id => do
      let b ← Serializer.write_int4 id int4DefaultError
      .ok (opcode.CHANNEL :: b)
  | .list l => do
      let lb ← Serializer.write_int4 l.length "list is too long"
      let items ← Serializer.saveListItems 0 l
      .ok (opcode.NEWLIST :: (lb ++ items))
  | .dict d => do
      let ps ← Serializer.saveDictItems d
      .ok (opcode.NEWDICT :: ps)
  | .tup l => do
      let elems ← Serializer.saveSeq l
      let lb ← Serializer.write_int4 l.length "tuple is too long"
      .ok (elems ++ opcode.BUILDTUPLE :: lb)
  | .set l => do
      let elems ← Serializer.saveSeq l
      let lb ← Serializer.write_int4 l.length "set is too long"
      .ok (elems ++ opcode.SET :: lb)
  | .frozenset l => do
      let elems ← Serializer.saveSeq l
      let lb ← Serializer.write_int4 l.length "set is too long"
      .ok (elems ++ opcode.FROZENSET :: lb)
def Serializer.saveListItems : Nat → VList → Except SErr (List Nat)
  | _, .nil => .ok []
  | i, .cons x xs => do
      let kb ← Serializer.save_int (i : Int)
      let vb ← Serializer.saveV x
      let rest ← Serializer.saveListItems (i + 1) xs
      .ok (kb ++ vb ++ opcode.SETITEM :: rest)
def Serializer.saveDictItems : VPairs → Except SErr (List Nat)
  | .nil => .ok []
  | .cons k v tl => do
      let kb ← Serializer.saveV k
      let vb ← Serializer.saveV v
      let rest ← Serializer.saveDictItems tl
      .ok (kb ++ vb ++ opcode.SETITEM :: rest)
def Serializer.saveSeq : VList → Except SErr (List Nat)
  | .nil => .ok []
  | .cons x xs => do
      let b ← Serializer.saveV x
      let rest ← Serializer.saveSeq xs
      .ok (b ++ rest)
end

/-- The byte stream of one framed message: `_save(obj)` then the `STOP`
opcode (the content of `streamlist` joined, in order). -/
def Serializer.saveWithStop (v : Value) : Except SErr (List Nat) := do
  let b ← Serializer.saveV v
  .ok (b ++ [opcode.STOP])

/-- `Serializer.save(obj)` in the default `WRITE_ON_SUCCESS` mode: encode
the whole message into the local `streamlist` buffer, and only after the
encoding succeeded perform one single transport write of the joined
buffer.  The second component lists the transport writes performed. -/
def Serializer.save (v : Value) : Except SErr Unit × List (List Nat) :=
  match Serializer.saveWithStop v with
  | .ok bs => (.ok (), [bs])
  | .error e => (.error e, [])

/-! ## Unserializer (`Unserializer.load` and the loader methods) -/

/-- Exceptions that can escape `Unserializer.load`.  Only the first three
are `UnserializationError`s; a truncated stream surfaces as the `EOFError`
raised by `Popen2IO.read`, and the remaining constructors are the python
builtin exceptions escaping from the individual loaders.  `fuelExhausted`
is an artefact of the fueled evaluation loop; `Unserializer.load` always
supplies enough fuel (one unit per opcode byte). -/
inductive LErr where
  | unknownOpcode (b : Nat)
  | stackMismatch
  | notEnoughForSetitem
  | eof
  | typeError
  | indexError
  | valueError
  | unicodeDecodeError
  | fuelExhausted
deriving DecidableEq

/-- Which of the `LErr` exceptions are `UnserializationError`s
(`"unkown opcode"`, `"internal unserialization error"`,
`"not enough items for setitem"`). -/
def LErr.isUnserializationError : LErr → Bool
  | .unknownOpcode _ => true
  | .stackMismatch => true
  | .notEnoughForSetitem => true
  | _ => false

/-- `Unserializer._read_int4`: read exactly 4 bytes (EOF if fewer remain)
and unpack them as a signed big-endian 32-bit integer. -/
def Unserializer.readInt4 (s : List Nat) : Except LErr (Int × List Nat) :=
  if 4 ≤ s.length then .ok (decodeInt4 (s.take 4), s.drop 4) else .error .eof

/-- `Popen2IO.read(n)`: loop until `n` bytes are collected, `EOFError` on a
short read.  For `n <= 0` the loop body never runs and the empty byte
string is returned. -/
def Unserializer.readBytes (n : Int) (s : List Nat) : Except LErr (List Nat × List Nat) :=
  if n ≤ (s.length : Int) then .ok (s.take n.toNat, s.drop n.toNat) else .error .eof

/-- `Unserializer._read_byte_string`: a 4-byte length then that many bytes. -/
def Unserializer.readByteString (s : List Nat) : Except LErr (List Nat × List Nat) := do
  let (n, s1) ← Unserializer.readInt4 s
  Unserializer.readBytes n s1

/-- Python list index assignment `l[i] = x` with negative-index wrapping;
`none` models the `IndexError` on an out-of-range index. -/
def pyListSet (l : List Value) (i : Int) (x : Value) : Option (List Value) :=
  let j := if i < 0 then i + l.length else i
  if 0 ≤ j ∧ j < (l.length : Int) then some (l.set j.toNat x) else none

/-- Python dict assignment `d[k] = v`: overwrite in place when an equal key
exists (keeping its position), else append.  Structural equality of
`Value` stands in for python `==` on the transported values. -/
def pyDictSet (d : List (Value × Value)) (k v : Value) : List (Value × Value) :=
  if d.any (fun p => p.1 = k) then d.map (fun p => if p.1 = k then (p.1, v) else p)
  else d ++ [(k, v)]

/-- `Unserializer.load_setitem`: `value = pop(); key = pop();
stack[-1][key] = value`, with the explicit stack-depth check.  The stack is
modelled with its top at the head. -/
def Unserializer.setitemOp : List Value → Except LErr (List Value)
  | value :: key :: cont :: rest =>
      match cont with
      | .list vl =>
          match (match key with
                 | .int i => some i
                 | .bool b => some (if b then (1 : Int) else 0)
                 | _ => none) with
          | Option.none => .error .typeError
          | some i =>
              match pyListSet vl.toList i value with
              | Option.none => .error .indexError
              | some l2 => .ok (.list (VList.ofList l2) :: rest)
      | .dict d =>
          if key.hashable then .ok (.dict (VPairs.ofList (pyDictSet d.toList key value)) :: rest)
          else .error .typeError
      | _ => .error .typeError
  | _ => .error .notEnoughForSetitem

/-- `Unserializer._load_tuple`: `tuple(stack[-length:])` and
`del stack[-length:]` for a nonzero length (python slice semantics,
clamped, with negative wrap), `()` for length zero.  The stack is modelled
with its top at the head, so python `stack[-m:]` is `take m` here, reversed
into bottom-first order. -/
def pyTupleSlice (n : Int) (stack : List Value) : List Value × List Value :=
  if n = 0 then ([], stack)
  else
    let m := if 0 ≤ n then min n.toNat stack.length
             else stack.length - min (-n).toNat stack.length
    ((stack.take m).reverse, stack.drop m)

/-- Python `set(elems)` keeps the first of equal elements. -/
def pySetDedupGo (seen : List Value) : List Value → List Value
  | [] => []
  | x :: xs =>
      if seen.any (fun y => y = x) then pySetDedupGo seen xs
      else x :: pySetDedupGo (x :: seen) xs

def pySetDedup (l : List Value) : List Value := pySetDedupGo [] l

/-- `Unserializer.load_stop` together with the `_Stop` handler of `load`:
return the single remaining stack value (`stack.pop(0)` of a one-element
stack), else `UnserializationError("internal unserialization error")`. -/
def Unserializer.stopOp : List Value → Except LErr Value
  | [v] => .ok v
  | _ => .error .stackMismatch

/-- The `Unserializer.load` loop: read one opcode byte (`EOFError` when the
stream is exhausted), dispatch through `num2func` (unknown byte raises
`UnserializationError`), run the loader, repeat until `load_stop` raises
`_Stop`, then return the single remaining stack value (else
`UnserializationError`).  One unit of fuel is spent per opcode byte; each
iteration consumes at least one stream byte, so the `length + 1` fuel
supplied by `Unserializer.load` never runs out. -/
def Unserializer.loadLoop : Nat → List Nat → List Value → Except LErr Value
  | 0, _, _ => .error .fuelExhausted
  | fuel + 1, s, stack =>
    match s with
    | [] => .error .eof
    | op :: s =>
      if op = opcode.NONE then Unserializer.loadLoop fuel s (.none :: stack)
      else if op = opcode.TRUE then Unserializer.loadLoop fuel s (.bool true :: stack)
      else if op = opcode.FALSE then Unserializer.loadLoop fuel s (.bool false :: stack)
      else if op = opcode.INT ∨ op = opcode.LONG then
        match Unserializer.readInt4 s with
        | .error e => .error e
        | .ok (i, s2) => Unserializer.loadLoop fuel s2 (.int i :: stack)
      else if op = opcode.LONGINT ∨ op = opcode.LONGLONG then
        match Unserializer.readByteString s with
        | .error e => .error e
        | .ok (bs, s2) =>
            match parsePyInt bs with
            | Option.none => .error .valueError
            | some i => Unserializer.loadLoop fuel s2 (.int i :: stack)
      else if op = opcode.FLOAT then
        if 8 ≤ s.length then
          Unserializer.loadLoop fuel (s.drop 8) (.float (fromBE (s.take 8)) :: stack)
        else .error .eof
      else if op = opcode.PY3STRING ∨ op = opcode.UNICODE then
        match Unserializer.readByteString s with
        | .error e => .error e
        | .ok (bs, s2) =>
            match utf8Decode bs with
            | Option.none => .error .unicodeDecodeError
            | some cps => Unserializer.loadLoop fuel s2 (.str cps :: stack)
      else if op = opcode.PY2STRING then
        match Unserializer.readByteString s with
        | .error e => .error e
        | .ok (bs, s2) => Unserializer.loadLoop fuel s2 (.str bs :: stack)
      else if op = opcode.BYTES then
        match Unserializer.readByteString s with
        | .error e => .error e
        | .ok (bs, s2) => Unserializer.loadLoop fuel s2 (.bytes bs :: stack)
      else if op = opcode.NEWLIST then
        match Unserializer.readInt4 s with
        | .error e => .error e
        | .ok (n, s2) =>
            Unserializer.loadLoop fuel s2 (.list (VList.ofList (List.replicate n.toNat .none)) :: stack)
      else if op = opcode.SETITEM then
        match Unserializer.setitemOp stack with
        | .error e => .error e
        | .ok stack2 => Unserializer.loadLoop fuel s stack2
      else if op = opcode.NEWDICT then Unserializer.loadLoop fuel s (.dict .nil :: stack)
      else if op = opcode.BUILDTUPLE then
        match Unserializer.readInt4 s with
        | .error e => .error e
        | .ok (n, s2) =>
            let (tup, rest) := pyTupleSlice n stack
            Unserializer.loadLoop fuel s2 (.tup (VList.ofList tup) :: rest)
      else if op = opcode.SET then
        match Unserializer.readInt4 s with
        | .error e => .error e
        | .ok (n, s2) =>
            let (tup, rest) := pyTupleSlice n stack
            if tup.all Value.hashable then
              Unserializer.loadLoop fuel s2 (.set (VList.ofList (pySetDedup tup)) :: rest)
            else .error .typeError
      else if op = opcode.FROZENSET then
        match Unserializer.readInt4 s with
        | .error e => .error e
        | .ok (n, s2) =>
            let (tup, rest) := pyTupleSlice n stack
            if tup.all Value.hashable then
              Unserializer.loadLoop fuel s2 (.frozenset (VList.ofList (pySetDedup tup)) :: rest)
            else .error .typeError
      else if op = opcode.STOP then Unserializer.stopOp stack
      else if op = opcode.CHANNEL then
        match Unserializer.readInt4 s with
        | .error e => .error e
        | .ok (id, s2) => Unserializer.loadLoop fuel s2 (.channel id :: stack)
      else .error (.unknownOpcode op)

/-- `Unserializer.load`: run the loop on a fresh stack. -/
def Unserializer.load (s : List Nat) : Except LErr Value :=
  Unserializer.loadLoop (s.length + 1) s []

/-! ## Evaluation lemmas for the opcode constants and the loader steps -/

@[simp] theorem opcodeEvalBUILDTUPLE : opcode.BUILDTUPLE = 64 := rfl
@[simp] theorem opcodeEvalBYTES : opcode.BYTES = 65 := rfl
@[simp] theorem opcodeEvalCHANNEL : opcode.CHANNEL = 66 := rfl
@[simp] theorem opcodeEvalFALSE : opcode.FALSE = 67 := rfl
@[simp] theorem opcodeEvalFLOAT : opcode.FLOAT = 68 := rfl
@[simp] theorem opcodeEvalFROZENSET : opcode.FROZENSET = 69 := rfl
@[simp] theorem opcodeEvalINT : opcode.INT = 70 := rfl
@[simp] theorem opcodeEvalLONG : opcode.LONG = 71 := rfl
@[simp] theorem opcodeEvalLONGINT : opcode.LONGINT = 72 := rfl
@[simp] theorem opcodeEvalLONGLONG : opcode.LONGLONG = 73 := rfl
@[simp] theorem opcodeEvalNEWDICT : opcode.NEWDICT = 74 := rfl
@[simp] theorem opcodeEvalNEWLIST : opcode.NEWLIST = 75 := rfl
@[simp] theorem opcodeEvalNONE : opcode.NONE = 76 := rfl
@[simp] theorem opcodeEvalPY2STRING : opcode.PY2STRING = 77 := rfl
@[simp] theorem opcodeEvalPY3STRING : opcode.PY3STRING = 78 := rfl
@[simp] theorem opcodeEvalSET : opcode.SET = 79 := rfl
@[simp] theorem opcodeEvalSETITEM : opcode.SETITEM = 80 := rfl
@[simp] theorem opcodeEvalSTOP : opcode.STOP = 81 := rfl
@[simp] theorem opcodeEvalTRUE : opcode.TRUE = 82 := rfl
@[simp] theorem opcodeEvalUNICODE : opcode.UNICODE = 83 := rfl

theorem readInt4_encode (i : Int) (rest : List Nat)
    (hlo : -2147483648 ≤ i) (hhi : i ≤ 2147483647) :
    Unserializer.readInt4 (encodeInt4 i ++ rest) = .ok (i, rest) := by
  unfold Unserializer.readInt4
  have hlen : (encodeInt4 i).length = 4 := encodeInt4_length i
  rw [if_pos (by simp [hlen])]
  rw [List.take_left' hlen, List.drop_left' hlen, decodeInt4_encodeInt4 i hlo hhi]

theorem readBytes_exact (bs rest : List Nat) :
    Unserializer.readBytes (bs.length : Int) (bs ++ rest) = .ok (bs, rest) := by
  unfold Unserializer.readBytes
  rw [if_pos (by simp)]
  rw [Int.toNat_ofNat, List.take_left' rfl, List.drop_left' rfl]

theorem readByteString_encode (bs rest : List Nat) (h : bs.length ≤ 2147483647) :
    Unserializer.readByteString (encodeInt4 (bs.length : Int) ++ (bs ++ rest)) =
      .ok (bs, rest) := by
  unfold Unserializer.readByteString
  rw [readInt4_encode _ _ (by omega) (by exact_mod_cast h)]
  exact readBytes_exact bs rest

theorem loadLoop_none (fuel : Nat) (s : List Nat) (stack : List Value) :
    Unserializer.loadLoop (fuel + 1) (76 :: s) stack =
      Unserializer.loadLoop fuel s (.none :: stack) := by
  rw [Unserializer.loadLoop]
  rw [if_pos (by decide : 76 = opcode.NONE)]

theorem loadLoop_true (fuel : Nat) (s : List Nat) (stack : List Value) :
    Unserializer.loadLoop (fuel + 1) (82 :: s) stack =
      Unserializer.loadLoop fuel s (.bool true :: stack) := by
  rw [Unserializer.loadLoop]
  rw [if_neg (by decide : ¬(82 = opcode.NONE))]
  rw [if_pos (by decide : 82 = opcode.TRUE)]

theorem loadLoop_false (fuel : Nat) (s : List Nat) (stack : List Value) :
    Unserializer.loadLoop (fuel + 1) (67 :: s) stack =
      Unserializer.loadLoop fuel s (.bool false :: stack) := by
  rw [Unserializer.loadLoop]
  rw [if_neg (by decide : ¬(67 = opcode.NONE))]
  rw [if_neg (by decide : ¬(67 = opcode.TRUE))]
  rw [if_pos (by decide : 67 = opcode.FALSE)]

theorem loadLoop_int (fuel : Nat) (i : Int) (rest : List Nat) (stack : List Value)
    (hlo : -2147483648 ≤ i) (hhi : i ≤ 2147483647) :
    Unserializer.loadLoop (fuel + 1) (70 :: (encodeInt4 i ++ rest)) stack =
      Unserializer.loadLoop fuel rest (.int i :: stack) := by
  rw [Unserializer.loadLoop]
  rw [if_neg (by decide : ¬(70 = opcode.NONE))]
  rw [if_neg (by decide : ¬(70 = opcode.TRUE))]
  rw [if_neg (by decide : ¬(70 = opcode.FALSE))]
  rw [if_pos (by decide : (70 = opcode.INT ∨ 70 = opcode.LONG))]
  rw [readInt4_encode i rest hlo hhi]
theorem loadLoop_longint (fuel : Nat) (bs rest : List Nat) (stack : List Value) (i : Int)
    (hlen : bs.length ≤ 2147483647) (hparse : parsePyInt bs = some i) :
    Unserializer.loadLoop (fuel + 1)
        (72 :: (encodeInt4 (bs.length : Int) ++ (bs ++ rest))) stack =
      Unserializer.loadLoop fuel rest (.int i :: stack) := by
  rw [Unserializer.loadLoop]
  rw [if_neg (by decide : ¬(72 = opcode.NONE))]
  rw [if_neg (by decide : ¬(72 = opcode.TRUE))]
  rw [if_neg (by decide : ¬(72 = opcode.FALSE))]
  rw [if_neg (by decide : ¬((72 = opcode.INT ∨ 72 = opcode.LONG)))]
  rw [if_pos (by decide : (72 = opcode.LONGINT ∨ 72 = opcode.LONGLONG))]
  rw [readByteString_encode bs rest hlen]
  dsimp only []
  rw [hparse]
theorem loadLoop_float (fuel : Nat) (bits : Nat) (rest : List Nat) (stack : List Value)
    (h : bits < 18446744073709551616) :
    Unserializer.loadLoop (fuel + 1) (68 :: (toBE 8 bits ++ rest)) stack =
      Unserializer.loadLoop fuel rest (.float bits :: stack) := by
  rw [Unserializer.loadLoop]
  rw [if_neg (by decide : ¬(68 = opcode.NONE))]
  rw [if_neg (by decide : ¬(68 = opcode.TRUE))]
  rw [if_neg (by decide : ¬(68 = opcode.FALSE))]
  rw [if_neg (by decide : ¬((68 = opcode.INT ∨ 68 = opcode.LONG)))]
  rw [if_neg (by decide : ¬((68 = opcode.LONGINT ∨ 68 = opcode.LONGLONG)))]
  rw [if_pos (by decide : 68 = opcode.FLOAT)]
  have hlen : (toBE 8 bits).length = 8 := toBE_length 8 bits
  rw [if_pos (by simp [hlen])]
  rw [List.take_left' hlen, List.drop_left' hlen, fromBE_toBE,
      Nat.mod_eq_of_lt (by norm_num [h] : bits < 256 ^ 8)]
theorem loadLoop_py3string (fuel : Nat) (bs rest : List Nat) (stack : List Value)
    (cps : List Nat) (hlen : bs.length ≤ 2147483647) (hdec : utf8Decode bs = some cps) :
    Unserializer.loadLoop (fuel + 1)
        (78 :: (encodeInt4 (bs.length : Int) ++ (bs ++ rest))) stack =
      Unserializer.loadLoop fuel rest (.str cps :: stack) := by
  rw [Unserializer.loadLoop]
  rw [if_neg (by decide : ¬(78 = opcode.NONE))]
  rw [if_neg (by decide : ¬(78 = opcode.TRUE))]
  rw [if_neg (by decide : ¬(78 = opcode.FALSE))]
  rw [if_neg (by decide : ¬((78 = opcode.INT ∨ 78 = opcode.LONG)))]
  rw [if_neg (by decide : ¬((78 = opcode.LONGINT ∨ 78 = opcode.LONGLONG)))]
  rw [if_neg (by decide : ¬(78 = opcode.FLOAT))]
  rw [if_pos (by decide : (78 = opcode.PY3STRING ∨ 78 = opcode.UNICODE))]
  rw [readByteString_encode bs rest hlen]
  dsimp only []
  rw [hdec]
theorem loadLoop_bytes (fuel : Nat) (bs rest : List Nat) (stack : List Value)
    (hlen : bs.length ≤ 2147483647) :
    Unserializer.loadLoop (fuel + 1)
        (65 :: (encodeInt4 (bs.length : Int) ++ (bs ++ rest))) stack =
      Unserializer.loadLoop fuel rest (.bytes bs :: stack) := by
  rw [Unserializer.loadLoop]
  rw [if_neg (by decide : ¬(65 = opcode.NONE))]
  rw [if_neg (by decide : ¬(65 = opcode.TRUE))]
  rw [if_neg (by decide : ¬(65 = opcode.FALSE))]
  rw [if_neg (by decide : ¬((65 = opcode.INT ∨ 65 = opcode.LONG)))]
  rw [if_neg (by decide : ¬((65 = opcode.LONGINT ∨ 65 = opcode.LONGLONG)))]
  rw [if_neg (by decide : ¬(65 = opcode.FLOAT))]
  rw [if_neg (by decide : ¬((65 = opcode.PY3STRING ∨ 65 = opcode.UNICODE)))]
  rw [if_neg (by decide : ¬(65 = opcode.PY2STRING))]
  rw [if_pos (by decide : 65 = opcode.BYTES)]
  rw [readByteString_encode bs rest hlen]
theorem loadLoop_newlist (fuel : Nat) (n : Int) (rest : List Nat) (stack : List Value)
    (hlo : -2147483648 ≤ n) (hhi : n ≤ 2147483647) :
    Unserializer.loadLoop (fuel + 1) (75 :: (encodeInt4 n ++ rest)) stack =
      Unserializer.loadLoop fuel rest
        (.list (VList.ofList (List.replicate n.toNat .none)) :: stack) := by
  rw [Unserializer.loadLoop]
  rw [if_neg (by decide : ¬(75 = opcode.NONE))]
  rw [if_neg (by decide : ¬(75 = opcode.TRUE))]
  rw [if_neg (by decide : ¬(75 = opcode.FALSE))]
  rw [if_neg (by decide : ¬((75 = opcode.INT ∨ 75 = opcode.LONG)))]
  rw [if_neg (by decide : ¬((75 = opcode.LONGINT ∨ 75 = opcode.LONGLONG)))]
  rw [if_neg (by decide : ¬(75 = opcode.FLOAT))]
  rw [if_neg (by decide : ¬((75 = opcode.PY3STRING ∨ 75 = opcode.UNICODE)))]
  rw [if_neg (by decide : ¬(75 = opcode.PY2STRING))]
  rw [if_neg (by decide : ¬(75 = opcode.BYTES))]
  rw [if_pos (by decide : 75 = opcode.NEWLIST)]
  rw [readInt4_encode n rest hlo hhi]
theorem loadLoop_setitem (fuel : Nat) (s : List Nat) (stack stack2 : List Value)
    (h : Unserializer.setitemOp stack = .ok stack2) :
    Unserializer.loadLoop (fuel + 1) (80 :: s) stack =
      Unserializer.loadLoop fuel s stack2 := by
  rw [Unserializer.loadLoop]
  rw [if_neg (by decide : ¬(80 = opcode.NONE))]
  rw [if_neg (by decide : ¬(80 = opcode.TRUE))]
  rw [if_neg (by decide : ¬(80 = opcode.FALSE))]
  rw [if_neg (by decide : ¬((80 = opcode.INT ∨ 80 = opcode.LONG)))]
  rw [if_neg (by decide : ¬((80 = opcode.LONGINT ∨ 80 = opcode.LONGLONG)))]
  rw [if_neg (by decide : ¬(80 = opcode.FLOAT))]
  rw [if_neg (by decide : ¬((80 = opcode.PY3STRING ∨ 80 = opcode.UNICODE)))]
  rw [if_neg (by decide : ¬(80 = opcode.PY2STRING))]
  rw [if_neg (by decide : ¬(80 = opcode.BYTES))]
  rw [if_neg (by decide : ¬(80 = opcode.NEWLIST))]
  rw [if_pos (by decide : 80 = opcode.SETITEM)]
  rw [h]
theorem loadLoop_newdict (fuel : Nat) (s : List Nat) (stack : List Value) :
    Unserializer.loadLoop (fuel + 1) (74 :: s) stack =
      Unserializer.loadLoop fuel s (.dict .nil :: stack) := by
  rw [Unserializer.loadLoop]
  rw [if_neg (by decide : ¬(74 = opcode.NONE))]
  rw [if_neg (by decide : ¬(74 = opcode.TRUE))]
  rw [if_neg (by decide : ¬(74 = opcode.FALSE))]
  rw [if_neg (by decide : ¬((74 = opcode.INT ∨ 74 = opcode.LONG)))]
  rw [if_neg (by decide : ¬((74 = opcode.LONGINT ∨ 74 = opcode.LONGLONG)))]
  rw [if_neg (by decide : ¬(74 = opcode.FLOAT))]
  rw [if_neg (by decide : ¬((74 = opcode.PY3STRING ∨ 74 = opcode.UNICODE)))]
  rw [if_neg (by decide : ¬(74 = opcode.PY2STRING))]
  rw [if_neg (by decide : ¬(74 = opcode.BYTES))]
  rw [if_neg (by decide : ¬(74 = opcode.NEWLIST))]
  rw [if_neg (by decide : ¬(74 = opcode.SETITEM))]
  rw [if_pos (by decide : 74 = opcode.NEWDICT)]

theorem loadLoop_buildtuple (fuel : Nat) (n : Int) (rest : List Nat)
    (stack tup rest2 : List Value)
    (hlo : -2147483648 ≤ n) (hhi : n ≤ 2147483647)
    (hsl : pyTupleSlice n stack = (tup, rest2)) :
    Unserializer.loadLoop (fuel + 1) (64 :: (encodeInt4 n ++ rest)) stack =
      Unserializer.loadLoop fuel rest (.tup (VList.ofList tup) :: rest2) := by
  rw [Unserializer.loadLoop]
  rw [if_neg (by decide : ¬(64 = opcode.NONE))]
  rw [if_neg (by decide : ¬(64 = opcode.TRUE))]
  rw [if_neg (by decide : ¬(64 = opcode.FALSE))]
  rw [if_neg (by decide : ¬((64 = opcode.INT ∨ 64 = opcode.LONG)))]
  rw [if_neg (by decide : ¬((64 = opcode.LONGINT ∨ 64 = opcode.LONGLONG)))]
  rw [if_neg (by decide : ¬(64 = opcode.FLOAT))]
  rw [if_neg (by decide : ¬((64 = opcode.PY3STRING ∨ 64 = opcode.UNICODE)))]
  rw [if_neg (by decide : ¬(64 = opcode.PY2STRING))]
  rw [if_neg (by decide : ¬(64 = opcode.BYTES))]
  rw [if_neg (by decide : ¬(64 = opcode.NEWLIST))]
  rw [if_neg (by decide : ¬(64 = opcode.SETITEM))]
  rw [if_neg (by decide : ¬(64 = opcode.NEWDICT))]
  rw [if_pos (by decide : 64 = opcode.BUILDTUPLE)]
  rw [readInt4_encode n rest hlo hhi]
  dsimp only []
  rw [hsl]
theorem loadLoop_set (fuel : Nat) (n : Int) (rest : List Nat)
    (stack tup rest2 : List Value)
    (hlo : -2147483648 ≤ n) (hhi : n ≤ 2147483647)
    (hsl : pyTupleSlice n stack = (tup, rest2))
    (hh : tup.all Value.hashable = true) :
    Unserializer.loadLoop (fuel + 1) (79 :: (encodeInt4 n ++ rest)) stack =
      Unserializer.loadLoop fuel rest (.set (VList.ofList (pySetDedup tup)) :: rest2) := by
  rw [Unserializer.loadLoop]
  rw [if_neg (by decide : ¬(79 = opcode.NONE))]
  rw [if_neg (by decide : ¬(79 = opcode.TRUE))]
  rw [if_neg (by decide : ¬(79 = opcode.FALSE))]
  rw [if_neg (by decide : ¬((79 = opcode.INT ∨ 79 = opcode.LONG)))]
  rw [if_neg (by decide : ¬((79 = opcode.LONGINT ∨ 79 = opcode.LONGLONG)))]
  rw [if_neg (by decide : ¬(79 = opcode.FLOAT))]
  rw [if_neg (by decide : ¬((79 = opcode.PY3STRING ∨ 79 = opcode.UNICODE)))]
  rw [if_neg (by decide : ¬(79 = opcode.PY2STRING))]
  rw [if_neg (by decide : ¬(79 = opcode.BYTES))]
  rw [if_neg (by decide : ¬(79 = opcode.NEWLIST))]
  rw [if_neg (by decide : ¬(79 = opcode.SETITEM))]
  rw [if_neg (by decide : ¬(79 = opcode.NEWDICT))]
  rw [if_neg (by decide : ¬(79 = opcode.BUILDTUPLE))]
  rw [if_pos (by decide : 79 = opcode.SET)]
  rw [readInt4_encode n rest hlo hhi]
  dsimp only []
  rw [hsl]
  dsimp only []
  rw [if_pos hh]
theorem loadLoop_frozenset (fuel : Nat) (n : Int) (rest : List Nat)
    (stack tup rest2 : List Value)
    (hlo : -2147483648 ≤ n) (hhi : n ≤ 2147483647)
    (hsl : pyTupleSlice n stack = (tup, rest2))
    (hh : tup.all Value.hashable = true) :
    Unserializer.loadLoop (fuel + 1) (69 :: (encodeInt4 n ++ rest)) stack =
      Unserializer.loadLoop fuel rest
        (.frozenset (VList.ofList (pySetDedup tup)) :: rest2) := by
  rw [Unserializer.loadLoop]
  rw [if_neg (by decide : ¬(69 = opcode.NONE))]
  rw [if_neg (by decide : ¬(69 = opcode.TRUE))]
  rw [if_neg (by decide : ¬(69 = opcode.FALSE))]
  rw [if_neg (by decide : ¬((69 = opcode.INT ∨ 69 = opcode.LONG)))]
  rw [if_neg (by decide : ¬((69 = opcode.LONGINT ∨ 69 = opcode.LONGLONG)))]
  rw [if_neg (by decide : ¬(69 = opcode.FLOAT))]
  rw [if_neg (by decide : ¬((69 = opcode.PY3STRING ∨ 69 = opcode.UNICODE)))]
  rw [if_neg (by decide : ¬(69 = opcode.PY2STRING))]
  rw [if_neg (by decide : ¬(69 = opcode.BYTES))]
  rw [if_neg (by decide : ¬(69 = opcode.NEWLIST))]
  rw [if_neg (by decide : ¬(69 = opcode.SETITEM))]
  rw [if_neg (by decide : ¬(69 = opcode.NEWDICT))]
  rw [if_neg (by decide : ¬(69 = opcode.BUILDTUPLE))]
  rw [if_neg (by decide : ¬(69 = opcode.SET))]
  rw [if_pos (by decide : 69 = opcode.FROZENSET)]
  rw [readInt4_encode n rest hlo hhi]
  dsimp only []
  rw [hsl]
  dsimp only []
  rw [if_pos hh]
theorem loadLoop_stop_one (fuel : Nat) (s : List Nat) (v : Value) :
    Unserializer.loadLoop (fuel + 1) (81 :: s) [v] = .ok v := by
  have hstop : Unserializer.stopOp [v] = .ok v := rfl
  rw [Unserializer.loadLoop]
  rw [if_neg (by decide : ¬(81 = opcode.NONE))]
  rw [if_neg (by decide : ¬(81 = opcode.TRUE))]
  rw [if_neg (by decide : ¬(81 = opcode.FALSE))]
  rw [if_neg (by decide : ¬((81 = opcode.INT ∨ 81 = opcode.LONG)))]
  rw [if_neg (by decide : ¬((81 = opcode.LONGINT ∨ 81 = opcode.LONGLONG)))]
  rw [if_neg (by decide : ¬(81 = opcode.FLOAT))]
  rw [if_neg (by decide : ¬((81 = opcode.PY3STRING ∨ 81 = opcode.UNICODE)))]
  rw [if_neg (by decide : ¬(81 = opcode.PY2STRING))]
  rw [if_neg (by decide : ¬(81 = opcode.BYTES))]
  rw [if_neg (by decide : ¬(81 = opcode.NEWLIST))]
  rw [if_neg (by decide : ¬(81 = opcode.SETITEM))]
  rw [if_neg (by decide : ¬(81 = opcode.NEWDICT))]
  rw [if_neg (by decide : ¬(81 = opcode.BUILDTUPLE))]
  rw [if_neg (by decide : ¬(81 = opcode.SET))]
  rw [if_neg (by decide : ¬(81 = opcode.FROZENSET))]
  rw [if_pos (by decide : 81 = opcode.STOP), hstop]

theorem loadLoop_channel (fuel : Nat) (id : Int) (rest : List Nat) (stack : List Value)
    (hlo : -2147483648 ≤ id) (hhi : id ≤ 2147483647) :
    Unserializer.loadLoop (fuel + 1) (66 :: (encodeInt4 id ++ rest)) stack =
      Unserializer.loadLoop fuel rest (.channel id :: stack) := by
  rw [Unserializer.loadLoop]
  rw [if_neg (by decide : ¬(66 = opcode.NONE))]
  rw [if_neg (by decide : ¬(66 = opcode.TRUE))]
  rw [if_neg (by decide : ¬(66 = opcode.FALSE))]
  rw [if_neg (by decide : ¬((66 = opcode.INT ∨ 66 = opcode.LONG)))]
  rw [if_neg (by decide : ¬((66 = opcode.LONGINT ∨ 66 = opcode.LONGLONG)))]
  rw [if_neg (by decide : ¬(66 = opcode.FLOAT))]
  rw [if_neg (by decide : ¬((66 = opcode.PY3STRING ∨ 66 = opcode.UNICODE)))]
  rw [if_neg (by decide : ¬(66 = opcode.PY2STRING))]
  rw [if_neg (by decide : ¬(66 = opcode.BYTES))]
  rw [if_neg (by decide : ¬(66 = opcode.NEWLIST))]
  rw [if_neg (by decide : ¬(66 = opcode.SETITEM))]
  rw [if_neg (by decide : ¬(66 = opcode.NEWDICT))]
  rw [if_neg (by decide : ¬(66 = opcode.BUILDTUPLE))]
  rw [if_neg (by decide : ¬(66 = opcode.SET))]
  rw [if_neg (by decide : ¬(66 = opcode.FROZENSET))]
  rw [if_neg (by decide : ¬(66 = opcode.STOP))]
  rw [if_pos (by decide : 66 = opcode.CHANNEL)]
  rw [readInt4_encode id rest hlo hhi]

/-! ## Supporting lemmas for the round-trip proof -/

theorem excBindOk {ε α β : Type} (a : α) (f : α → Except ε β) :
    ((Except.ok a : Except ε α) >>= f) = f a := rfl

theorem excBindError {ε α β : Type} (e : ε) (f : α → Except ε β) :
    ((Except.error e : Except ε α) >>= f) = .error e := rfl

theorem write_int4_ok (i : Int) (err : String) (b : List Nat)
    (h : Serializer.write_int4 i err = .ok b) :
    b = encodeInt4 i ∧ -2147483648 ≤ i ∧ i ≤ 2147483647 := by
  unfold Serializer.write_int4 at h
  by_cases h1 : i > FOUR_BYTE_INT_MAX
  · rw [if_pos h1] at h; exact absurd h (by simp)
  · rw [if_neg h1] at h
    by_cases h2 : i < -2147483648
    · rw [if_pos h2] at h; exact absurd h (by simp)
    · rw [if_neg h2] at h
      refine ⟨(Except.ok.inj h).symm, by omega, ?_⟩
      simp only [FOUR_BYTE_INT_MAX] at h1
      omega

theorem write_byte_sequence_ok (data out : List Nat)
    (h : Serializer.write_byte_sequence data = .ok out) :
    out = encodeInt4 (data.length : Int) ++ data ∧ data.length ≤ 2147483647 := by
  unfold Serializer.write_byte_sequence at h
  cases hw : Serializer.write_int4 (data.length : Int) "string is too long" with
  | error e => rw [hw, excBindError] at h; exact absurd h (by simp)
  | ok lb =>
      rw [hw, excBindOk] at h
      obtain ⟨rfl, -, hhi⟩ := write_int4_ok _ _ _ hw
      exact ⟨(Except.ok.inj h).symm, by exact_mod_cast hhi⟩

/-- `save_int` pushes the integer back on the unserializer stack in exactly
one loader step, whichever branch (`INT` or `LONGINT`) was taken. -/
theorem saveInt_push (i : Int) (bs : List Nat)
    (h : Serializer.save_int i = .ok bs) :
    1 ≤ bs.length ∧ ∀ (fuel : Nat) (rest : List Nat) (stack : List Value),
      Unserializer.loadLoop (fuel + 1) (bs ++ rest) stack =
        Unserializer.loadLoop fuel rest (.int i :: stack) := by
  unfold Serializer.save_int Serializer.save_integral at h
  by_cases hle : i ≤ FOUR_BYTE_INT_MAX
  · rw [if_pos hle] at h
    cases hw : Serializer.write_int4 i int4DefaultError with
    | error e => rw [hw, excBindError] at h; exact absurd h (by simp)
    | ok b =>
        rw [hw, excBindOk] at h
        obtain ⟨rfl, hlo, hhi⟩ := write_int4_ok _ _ _ hw
        obtain rfl : opcode.INT :: encodeInt4 i = bs := Except.ok.inj h
        refine ⟨by simp, ?_⟩
        intro fuel rest stack
        rw [opcodeEvalINT, List.cons_append]
        exact loadLoop_int fuel i rest stack hlo hhi
  · rw [if_neg hle] at h
    cases hw : Serializer.write_byte_sequence (asciiDecimal i.toNat) with
    | error e => rw [hw, excBindError] at h; exact absurd h (by simp)
    | ok b =>
        rw [hw, excBindOk] at h
        obtain ⟨rfl, hhi⟩ := write_byte_sequence_ok _ _ hw
        obtain rfl : opcode.LONGINT :: _ = bs := Except.ok.inj h
        refine ⟨by simp, ?_⟩
        intro fuel rest stack
        have hpos : 0 ≤ i := by simp only [FOUR_BYTE_INT_MAX] at hle; omega
        have hparse : parsePyInt (asciiDecimal i.toNat) = some i := by
          rw [parsePyInt_asciiDecimal, Int.toNat_of_nonneg hpos]
        rw [opcodeEvalLONGINT, List.cons_append, List.append_assoc]
        exact loadLoop_longint fuel _ rest stack i hhi hparse

theorem pyTupleSlice_exact (l stack : List Value) :
    pyTupleSlice (l.length : Int) (l.reverse ++ stack) = (l, stack) := by
  cases l with
  | nil => simp [pyTupleSlice]
  | cons x xs =>
      have hne : ¬(((x :: xs).length : Int) = 0) := by
        simp only [List.length_cons]
        omega
      have hpos : (0 : Int) ≤ ((x :: xs).length : Int) := by
        simp only [List.length_cons]
        omega
      simp only [pyTupleSlice, if_neg hne, if_pos hpos]
      rw [Int.toNat_ofNat]
      have hm : min (x :: xs).length ((x :: xs).reverse ++ stack).length =
          (x :: xs).reverse.length := by
        simp only [List.length_append, List.length_reverse]
        omega
      rw [hm, List.take_left, List.drop_left, List.reverse_reverse]

theorem listSet_mid (pre suf : List Value) (y x : Value) :
    (pre ++ y :: suf).set pre.length x = pre ++ x :: suf := by
  induction pre with
  | nil => rfl
  | cons p ps ih => simp [List.set, ih]

theorem pyListSet_fill (pre suf : List Value) (y x : Value) :
    pyListSet (pre ++ y :: suf) (pre.length : Int) x = some (pre ++ x :: suf) := by
  have hneg : ¬((pre.length : Int) < 0) := by omega
  simp only [pyListSet, if_neg hneg]
  rw [if_pos]
  · rw [Int.toNat_ofNat, listSet_mid]
  · refine ⟨by omega, ?_⟩
    simp only [List.length_append, List.length_cons]
    push_cast
    omega

theorem pyDictSet_append (d : List (Value × Value)) (k v : Value)
    (h : d.all (fun p => p.1 ≠ k) = true) :
    pyDictSet d k v = d ++ [(k, v)] := by
  unfold pyDictSet
  rw [if_neg]
  intro hany
  rw [List.any_eq_true] at hany
  obtain ⟨p, hp, hpk⟩ := hany
  rw [List.all_eq_true] at h
  have := h p hp
  simp only [ne_eq, decide_not, Bool.not_eq_true', decide_eq_false_iff_not] at this
  exact this (by simpa using hpk)

theorem pySetDedupGo_eq_self (l : List Value) : ∀ (seen : List Value),
    noDupValues l = true → (∀ x ∈ l, ∀ y ∈ seen, ¬(y = x)) →
    pySetDedupGo seen l = l := by
  induction l with
  | nil => intro seen _ _; rfl
  | cons x xs ih =>
      intro seen hnd hseen
      unfold pySetDedupGo
      rw [if_neg]
      · congr 1
        unfold noDupValues at hnd
        rw [Bool.and_eq_true] at hnd
        apply ih (x :: seen) hnd.2
        intro a ha y hy
        cases List.mem_cons.mp hy with
        | inl hyx =>
            subst hyx
            have := hnd.1
            rw [List.all_eq_true] at this
            have := this a ha
            simpa using this
        | inr hys => exact hseen a (List.mem_cons_of_mem _ ha) y hys
      · intro hany
        rw [List.any_eq_true] at hany
        obtain ⟨y, hy, hyx⟩ := hany
        exact hseen x (List.mem_cons_self _ _) y hy (by simpa using hyx)

theorem pySetDedup_eq_self (l : List Value) (h : noDupValues l = true) :
    pySetDedup l = l :=
  pySetDedupGo_eq_self l [] h (by intro x _ y hy; cases hy)

/-- `setitemOp` on a list container at the next free index. -/
theorem setitemOp_list (pre suf : List Value) (x : Value) (stack : List Value) :
    Unserializer.setitemOp
        (x :: .int (pre.length : Int) ::
          .list (VList.ofList (pre ++ Value.none :: suf)) :: stack) =
      .ok (.list (VList.ofList (pre ++ x :: suf)) :: stack) := by
  unfold Unserializer.setitemOp
  dsimp only []
  rw [VList.toList_ofList, pyListSet_fill]

/-- `setitemOp` on a dict container with a fresh hashable key appends. -/
theorem setitemOp_dict (done : List (Value × Value)) (k v : Value) (stack : List Value)
    (hhash : k.hashable = true) (hfresh : done.all (fun p => p.1 ≠ k) = true) :
    Unserializer.setitemOp (v :: k :: .dict (VPairs.ofList done) :: stack) =
      .ok (.dict (VPairs.ofList (done ++ [(k, v)])) :: stack) := by
  unfold Unserializer.setitemOp
  dsimp only []
  rw [vpairsToList_ofList, if_pos hhash, pyDictSet_append done k v hfresh]

/-! ## The push lemma: a saved value replays as one stack push

For every well-formed value, feeding its serialized bytes to the loader
loop pushes exactly that value onto the stack and continues with the rest
of the stream.  The existential `n` is the number of loader steps (fuel
units) the replay consumes. -/

mutual
theorem saveV_push : ∀ (v : Value) (bs : List Nat), Value.wf v = true →
    Serializer.saveV v = .ok bs →
    ∃ n, n ≤ bs.length ∧ ∀ (fuel : Nat) (rest : List Nat) (stack : List Value),
      Unserializer.loadLoop (fuel + n) (bs ++ rest) stack =
        Unserializer.loadLoop fuel rest (v :: stack)
  | .none, bs, _, h => by
      simp only [Serializer.saveV] at h
      obtain rfl : [opcode.NONE] = bs := Except.ok.inj h
      refine ⟨1, by simp, fun fuel rest stack => ?_⟩
      simp only [opcodeEvalNONE, List.cons_append, List.nil_append]
      exact loadLoop_none fuel rest stack
  | .bool b, bs, _, h => by
      simp only [Serializer.saveV] at h
      obtain rfl : [if b then opcode.TRUE else opcode.FALSE] = bs := Except.ok.inj h
      refine ⟨1, by cases b <;> simp, fun fuel rest stack => ?_⟩
      cases b
      · simp only [if_neg Bool.false_ne_true, opcodeEvalFALSE,
          List.cons_append, List.nil_append]
        exact loadLoop_false fuel rest stack
      · simp only [if_pos rfl, opcodeEvalTRUE, List.cons_append, List.nil_append]
        exact loadLoop_true fuel rest stack
  | .int i, bs, _, h => by
      simp only [Serializer.saveV] at h
      obtain ⟨hlen, hpush⟩ := saveInt_push i bs h
      exact ⟨1, hlen, hpush⟩
  | .float bits, bs, hwf, h => by
      simp only [Value.wf] at hwf
      simp only [Serializer.saveV] at h
      obtain rfl : opcode.FLOAT :: toBE 8 bits = bs := Except.ok.inj h
      refine ⟨1, by simp, fun fuel rest stack => ?_⟩
      simp only [opcodeEvalFLOAT, List.cons_append]
      exact loadLoop_float fuel bits rest stack (by simpa using hwf)
  | .bytes data, bs, _, h => by
      simp only [Serializer.saveV] at h
      cases hw : Serializer.write_byte_sequence data with
      | error e => rw [hw, excBindError] at h; exact absurd h (by simp)
      | ok t =>
          rw [hw, excBindOk] at h
          obtain ⟨rfl, hhi⟩ := write_byte_sequence_ok _ _ hw
          obtain rfl : opcode.BYTES :: _ = bs := Except.ok.inj h
          refine ⟨1, by simp, fun fuel rest stack => ?_⟩
          simp only [opcodeEvalBYTES, List.cons_append, List.append_assoc]
          exact loadLoop_bytes fuel data rest stack hhi
  | .str cps, bs, _, h => by
      simp only [Serializer.saveV] at h
      cases henc : utf8Encode cps with
      | none => rw [henc] at h; exact absurd h (by simp)
      | some ebs =>
          rw [henc] at h
          dsimp only [] at h
          cases hw : Serializer.write_byte_sequence ebs with
          | error e => rw [hw, excBindError] at h; exact absurd h (by simp)
          | ok t =>
              rw [hw, excBindOk] at h
              obtain ⟨rfl, hhi⟩ := write_byte_sequence_ok _ _ hw
              obtain rfl : opcode.PY3STRING :: _ = bs := Except.ok.inj h
              refine ⟨1, by simp, fun fuel rest stack => ?_⟩
              simp only [opcodeEvalPY3STRING, List.cons_append, List.append_assoc]
              exact loadLoop_py3string fuel ebs rest stack cps hhi
                (utf8Decode_utf8Encode cps ebs henc)
  | .channel id, bs, _, h => by
      simp only [Serializer.saveV] at h
      cases hw : Serializer.write_int4 id int4DefaultError with
      | error e => rw [hw, excBindError] at h; exact absurd h (by simp)
      | ok b =>
          rw [hw, excBindOk] at h
          obtain ⟨rfl, hlo, hhi⟩ := write_int4_ok _ _ _ hw
          obtain rfl : opcode.CHANNEL :: encodeInt4 id = bs := Except.ok.inj h
          refine ⟨1, by simp, fun fuel rest stack => ?_⟩
          simp only [opcodeEvalCHANNEL, List.cons_append]
          exact loadLoop_channel fuel id rest stack hlo hhi
  | .list l, bs, hwf, h => by
      simp only [Value.wf] at hwf
      simp only [Serializer.saveV] at h
      cases hw : Serializer.write_int4 (VList.length l : Int) "list is too long" with
      | error e => rw [hw, excBindError] at h; exact absurd h (by simp)
      | ok lb =>
          rw [hw, excBindOk] at h
          obtain ⟨rfl, hlo, hhi⟩ := write_int4_ok _ _ _ hw
          cases hit : Serializer.saveListItems 0 l with
          | error e => rw [hit, excBindError] at h; exact absurd h (by simp)
          | ok items =>
              rw [hit, excBindOk] at h
              obtain rfl : opcode.NEWLIST :: (encodeInt4 _ ++ items) = bs := Except.ok.inj h
              obtain ⟨m, hm, hpush⟩ := saveListItems_push l 0 items hwf hit
              refine ⟨m + 1, by simp [encodeInt4, toBE_length]; omega,
                fun fuel rest stack => ?_⟩
              simp only [opcodeEvalNEWLIST, List.cons_append, List.append_assoc]
              have heq : fuel + (m + 1) = (fuel + m) + 1 := by omega
              rw [heq, loadLoop_newlist (fuel + m) _ (items ++ rest) stack hlo hhi]
              have hrec := hpush fuel rest stack [] (by simp)
              simp only [List.nil_append] at hrec
              rw [Int.toNat_ofNat, hrec, VList.ofList_toList]
  | .dict d, bs, hwf, h => by
      simp only [Value.wf, Bool.and_eq_true] at hwf
      obtain ⟨⟨hnd, hhash⟩, hallwf⟩ := hwf
      simp only [Serializer.saveV] at h
      cases hit : Serializer.saveDictItems d with
      | error e => rw [hit, excBindError] at h; exact absurd h (by simp)
      | ok ps =>
          rw [hit, excBindOk] at h
          obtain rfl : opcode.NEWDICT :: ps = bs := Except.ok.inj h
          obtain ⟨m, hm, hpush⟩ := saveDictItems_push d ps hallwf hhash hnd hit
          refine ⟨m + 1, by simp; omega, fun fuel rest stack => ?_⟩
          simp only [opcodeEvalNEWDICT, List.cons_append]
          have heq : fuel + (m + 1) = (fuel + m) + 1 := by omega
          rw [heq, loadLoop_newdict (fuel + m) (ps ++ rest) stack]
          have hrec := hpush fuel rest stack [] (by intro k _; simp)
          simp only [List.nil_append] at hrec
          have hnil : (VPairs.ofList [] : VPairs) = .nil := rfl
          rw [← hnil, hrec, vpairsOfList_toList]
  | .tup l, bs, hwf, h => by
      simp only [Value.wf] at hwf
      simp only [Serializer.saveV] at h
      cases hse : Serializer.saveSeq l with
      | error e => rw [hse, excBindError] at h; exact absurd h (by simp)
      | ok elems =>
          rw [hse, excBindOk] at h
          cases hw : Serializer.write_int4 (VList.length l : Int) "tuple is too long" with
          | error e => rw [hw, excBindError] at h; exact absurd h (by simp)
          | ok lb =>
              rw [hw, excBindOk] at h
              obtain ⟨rfl, hlo, hhi⟩ := write_int4_ok _ _ _ hw
              obtain rfl : elems ++ opcode.BUILDTUPLE :: encodeInt4 _ = bs := Except.ok.inj h
              obtain ⟨m, hm, hpush⟩ := saveSeq_push l elems hwf hse
              refine ⟨m + 1, by simp [encodeInt4, toBE_length]; omega,
                fun fuel rest stack => ?_⟩
              simp only [opcodeEvalBUILDTUPLE, List.append_assoc, List.cons_append]
              have heq : fuel + (m + 1) = (fuel + 1) + m := by omega
              rw [heq, hpush (fuel + 1) (64 :: (encodeInt4 (VList.length l : Int) ++ rest)) stack]
              have hlen : (VList.length l : Int) = (l.toList.length : Int) := by
                rw [VList.length_toList]
              rw [hlen] at hlo hhi ⊢
              rw [loadLoop_buildtuple fuel _ rest _ l.toList stack hlo hhi
                (pyTupleSlice_exact l.toList stack), VList.ofList_toList]
  | .set l, bs, hwf, h => by
      simp only [Value.wf, Bool.and_eq_true] at hwf
      obtain ⟨⟨hnd, hhash⟩, hallwf⟩ := hwf
      simp only [Serializer.saveV] at h
      cases hse : Serializer.saveSeq l with
      | error e => rw [hse, excBindError] at h; exact absurd h (by simp)
      | ok elems =>
          rw [hse, excBindOk] at h
          cases hw : Serializer.write_int4 (VList.length l : Int) "set is too long" with
          | error e => rw [hw, excBindError] at h; exact absurd h (by simp)
          | ok lb =>
              rw [hw, excBindOk] at h
              obtain ⟨rfl, hlo, hhi⟩ := write_int4_ok _ _ _ hw
              obtain rfl : elems ++ opcode.SET :: encodeInt4 _ = bs := Except.ok.inj h
              obtain ⟨m, hm, hpush⟩ := saveSeq_push l elems hallwf hse
              refine ⟨m + 1, by simp [encodeInt4, toBE_length]; omega,
                fun fuel rest stack => ?_⟩
              simp only [opcodeEvalSET, List.append_assoc, List.cons_append]
              have heq : fuel + (m + 1) = (fuel + 1) + m := by omega
              rw [heq, hpush (fuel + 1) (79 :: (encodeInt4 (VList.length l : Int) ++ rest)) stack]
              have hlen : (VList.length l : Int) = (l.toList.length : Int) := by
                rw [VList.length_toList]
              rw [hlen] at hlo hhi ⊢
              rw [loadLoop_set fuel _ rest _ l.toList stack hlo hhi
                (pyTupleSlice_exact l.toList stack) hhash,
                pySetDedup_eq_self l.toList hnd, VList.ofList_toList]
  | .frozenset l, bs, hwf, h => by
      simp only [Value.wf, Bool.and_eq_true] at hwf
      obtain ⟨⟨hnd, hhash⟩, hallwf⟩ := hwf
      simp only [Serializer.saveV] at h
      cases hse : Serializer.saveSeq l with
      | error e => rw [hse, excBindError] at h; exact absurd h (by simp)
      | ok elems =>
          rw [hse, excBindOk] at h
          cases hw : Serializer.write_int4 (VList.length l : Int) "set is too long" with
          | error e => rw [hw, excBindError] at h; exact absurd h (by simp)
          | ok lb =>
              rw [hw, excBindOk] at h
              obtain ⟨rfl, hlo, hhi⟩ := write_int4_ok _ _ _ hw
              obtain rfl : elems ++ opcode.FROZENSET :: encodeInt4 _ = bs := Except.ok.inj h
              obtain ⟨m, hm, hpush⟩ := saveSeq_push l elems hallwf hse
              refine ⟨m + 1, by simp [encodeInt4, toBE_length]; omega,
                fun fuel rest stack => ?_⟩
              simp only [opcodeEvalFROZENSET, List.append_assoc, List.cons_append]
              have heq : fuel + (m + 1) = (fuel + 1) + m := by omega
              rw [heq, hpush (fuel + 1) (69 :: (encodeInt4 (VList.length l : Int) ++ rest)) stack]
              have hlen : (VList.length l : Int) = (l.toList.length : Int) := by
                rw [VList.length_toList]
              rw [hlen] at hlo hhi ⊢
              rw [loadLoop_frozenset fuel _ rest _ l.toList stack hlo hhi
                (pyTupleSlice_exact l.toList stack) hhash,
                pySetDedup_eq_self l.toList hnd, VList.ofList_toList]

theorem saveSeq_push : ∀ (l : VList) (bs : List Nat), VList.allWf l = true →
    Serializer.saveSeq l = .ok bs →
    ∃ n, n ≤ bs.length ∧ ∀ (fuel : Nat) (rest : List Nat) (stack : List Value),
      Unserializer.loadLoop (fuel + n) (bs ++ rest) stack =
        Unserializer.loadLoop fuel rest (l.toList.reverse ++ stack)
  | .nil, bs, _, h => by
      simp only [Serializer.saveSeq] at h
      obtain rfl : ([] : List Nat) = bs := Except.ok.inj h
      exact ⟨0, by simp, fun fuel rest stack => by simp [VList.toList]⟩
  | .cons x xs, bs, hwf, h => by
      simp only [VList.allWf, Bool.and_eq_true] at hwf
      obtain ⟨hwx, hwxs⟩ := hwf
      simp only [Serializer.saveSeq] at h
      cases hb : Serializer.saveV x with
      | error e => rw [hb, excBindError] at h; exact absurd h (by simp)
      | ok b =>
          rw [hb, excBindOk] at h
          cases hr : Serializer.saveSeq xs with
          | error e => rw [hr, excBindError] at h; exact absurd h (by simp)
          | ok r =>
              rw [hr, excBindOk] at h
              obtain rfl : b ++ r = bs := Except.ok.inj h
              obtain ⟨n1, hn1, hpush1⟩ := saveV_push x b hwx hb
              obtain ⟨n2, hn2, hpush2⟩ := saveSeq_push xs r hwxs hr
              refine ⟨n1 + n2, by simp; omega, fun fuel rest stack => ?_⟩
              simp only [List.append_assoc]
              have heq : fuel + (n1 + n2) = ((fuel + n2) + n1) := by omega
              rw [heq, hpush1 (fuel + n2) (r ++ rest) stack,
                hpush2 fuel rest (x :: stack)]
              simp only [VList.toList, List.reverse_cons, List.append_assoc,
                List.singleton_append]

theorem saveListItems_push : ∀ (todo : VList) (i : Nat) (bs : List Nat),
    VList.allWf todo = true →
    Serializer.saveListItems i todo = .ok bs →
    ∃ n, n ≤ bs.length ∧ ∀ (fuel : Nat) (rest : List Nat) (stack : List Value)
      (pre : List Value), pre.length = i →
      Unserializer.loadLoop (fuel + n) (bs ++ rest)
          (.list (VList.ofList (pre ++ List.replicate todo.length Value.none)) :: stack) =
        Unserializer.loadLoop fuel rest
          (.list (VList.ofList (pre ++ todo.toList)) :: stack)
  | .nil, i, bs, _, h => by
      simp only [Serializer.saveListItems] at h
      obtain rfl : ([] : List Nat) = bs := Except.ok.inj h
      exact ⟨0, by simp, fun fuel rest stack pre _ => by simp [VList.length, VList.toList]⟩
  | .cons x xs, i, bs, hwf, h => by
      simp only [VList.allWf, Bool.and_eq_true] at hwf
      obtain ⟨hwx, hwxs⟩ := hwf
      simp only [Serializer.saveListItems] at h
      cases hkb : Serializer.save_int (i : Int) with
      | error e => rw [hkb, excBindError] at h; exact absurd h (by simp)
      | ok kb =>
          rw [hkb, excBindOk] at h
          cases hvb : Serializer.saveV x with
          | error e => rw [hvb, excBindError] at h; exact absurd h (by simp)
          | ok vb =>
              rw [hvb, excBindOk] at h
              cases hr : Serializer.saveListItems (i + 1) xs with
              | error e => rw [hr, excBindError] at h; exact absurd h (by simp)
              | ok r =>
                  rw [hr, excBindOk] at h
                  obtain rfl : kb ++ vb ++ opcode.SETITEM :: r = bs := Except.ok.inj h
                  obtain ⟨hklen, hkpush⟩ := saveInt_push (i : Int) kb hkb
                  obtain ⟨n1, hn1, hpush1⟩ := saveV_push x vb hwx hvb
                  obtain ⟨n2, hn2, hpush2⟩ := saveListItems_push xs (i + 1) r hwxs hr
                  refine ⟨n2 + n1 + 2, by simp [opcodeEvalSETITEM]; omega,
                    fun fuel rest stack pre hpre => ?_⟩
                  subst hpre
                  simp only [opcodeEvalSETITEM, List.append_assoc, List.cons_append]
                  have heq : fuel + (n2 + n1 + 2) = ((((fuel + n2) + 1) + n1) + 1) := by omega
                  rw [heq, hkpush (((fuel + n2) + 1) + n1)
                    (vb ++ (80 :: (r ++ rest))) _,
                    hpush1 ((fuel + n2) + 1) (80 :: (r ++ rest)) _]
                  have hrepl : List.replicate (VList.cons x xs).length Value.none =
                      Value.none :: List.replicate xs.length Value.none := by
                    simp [VList.length, List.replicate_succ]
                  rw [hrepl]
                  rw [loadLoop_setitem (fuel + n2) (r ++ rest) _ _
                    (setitemOp_list pre (List.replicate xs.length Value.none) x stack)]
                  have hrec := hpush2 fuel rest stack (pre ++ [x]) (by simp)
                  simp only [List.append_assoc, List.singleton_append] at hrec
                  rw [hrec]
                  simp only [VList.toList]

theorem saveDictItems_push : ∀ (d : VPairs) (bs : List Nat),
    VPairs.allWf d = true → d.keys.all Value.hashable = true →
    noDupValues d.keys = true →
    Serializer.saveDictItems d = .ok bs →
    ∃ n, n ≤ bs.length ∧ ∀ (fuel : Nat) (rest : List Nat) (stack : List Value)
      (done : List (Value × Value)),
      (∀ k ∈ d.keys, done.all (fun p => p.1 ≠ k) = true) →
      Unserializer.loadLoop (fuel + n) (bs ++ rest)
          (.dict (VPairs.ofList done) :: stack) =
        Unserializer.loadLoop fuel rest
          (.dict (VPairs.ofList (done ++ d.toList)) :: stack)
  | .nil, bs, _, _, _, h => by
      simp only [Serializer.saveDictItems] at h
      obtain rfl : ([] : List Nat) = bs := Except.ok.inj h
      exact ⟨0, by simp, fun fuel rest stack done _ => by simp [VPairs.toList]⟩
  | .cons k v tl, bs, hwf, hhash, hnd, h => by
      simp only [VPairs.allWf, Bool.and_eq_true] at hwf
      obtain ⟨⟨hwk, hwv⟩, hwtl⟩ := hwf
      simp only [VPairs.keys, List.all_cons, Bool.and_eq_true] at hhash
      obtain ⟨hhk, hhtl⟩ := hhash
      simp only [VPairs.keys, noDupValues, Bool.and_eq_true] at hnd
      obtain ⟨hfresh, hndtl⟩ := hnd
      simp only [Serializer.saveDictItems] at h
      cases hkb : Serializer.saveV k with
      | error e => rw [hkb, excBindError] at h; exact absurd h (by simp)
      | ok kb =>
          rw [hkb, excBindOk] at h
          cases hvb : Serializer.saveV v with
          | error e => rw [hvb, excBindError] at h; exact absurd h (by simp)
          | ok vb =>
              rw [hvb, excBindOk] at h
              cases hr : Serializer.saveDictItems tl with
              | error e => rw [hr, excBindError] at h; exact absurd h (by simp)
              | ok r =>
                  rw [hr, excBindOk] at h
                  obtain rfl : kb ++ vb ++ opcode.SETITEM :: r = bs := Except.ok.inj h
                  obtain ⟨n1, hn1, hpush1⟩ := saveV_push k kb hwk hkb
                  obtain ⟨n2, hn2, hpush2⟩ := saveV_push v vb hwv hvb
                  obtain ⟨n3, hn3, hpush3⟩ := saveDictItems_push tl r hwtl hhtl hndtl hr
                  refine ⟨n3 + n2 + n1 + 1, by simp [opcodeEvalSETITEM]; omega,
                    fun fuel rest stack done hdone => ?_⟩
                  simp only [opcodeEvalSETITEM, List.append_assoc, List.cons_append]
                  have heq : fuel + (n3 + n2 + n1 + 1) =
                      ((((fuel + n3) + 1) + n2) + n1) := by omega
                  rw [heq, hpush1 ((( fuel + n3) + 1) + n2) (vb ++ (80 :: (r ++ rest))) _,
                    hpush2 ((fuel + n3) + 1) (80 :: (r ++ rest)) _]
                  have hdk : done.all (fun p => p.1 ≠ k) = true :=
                    hdone k (by simp [VPairs.keys])
                  rw [loadLoop_setitem (fuel + n3) (r ++ rest) _ _
                    (setitemOp_dict done k v stack hhk hdk)]
                  have hrec := hpush3 fuel rest stack (done ++ [(k, v)]) ?hfreshrec
                  case hfreshrec =>
                    intro k2 hk2
                    rw [List.all_append]
                    rw [Bool.and_eq_true]
                    refine ⟨hdone k2 (by simp [VPairs.keys, hk2]), ?_⟩
                    simp only [List.all_cons, List.all_nil, Bool.and_true]
                    rw [List.all_eq_true] at hfresh
                    have := hfresh k2 hk2
                    simpa using this
                  rw [hrec]
                  simp only [VPairs.toList, List.append_assoc, List.singleton_append]
end

/-! ## Claim C1: serialize-deserialize round trip -/

/-- C1: for every value v in the supported value grammar (none, booleans,
integers of absolute value at most 2^31-1, bigger integers, 64-bit floats,
byte strings, UTF-8 text, and lists, dicts, tuples, sets and frozensets of
such values, including nested combinations), feeding the byte stream
produced by `Serializer.save(v)` to `Unserializer.load` returns a value
equal to v.  (`Value.wf` delimits the grammar: genuine python values have
64-bit float patterns, distinct hashable set elements and dict keys; the
byte stream produced by `save` is `saveWithStop`, the joined buffer written
to the transport.) -/
theorem save_load_roundtrip (v : Value) (s : List Nat)
    (hwf : Value.wf v = true) (hsave : Serializer.saveWithStop v = .ok s) :
    Unserializer.load s = .ok v := by
  unfold Serializer.saveWithStop at hsave
  cases hb : Serializer.saveV v with
  | error e => rw [hb, excBindError] at hsave; exact absurd hsave (by simp)
  | ok bs =>
      rw [hb, excBindOk] at hsave
      obtain rfl : bs ++ [opcode.STOP] = s := Except.ok.inj hsave
      obtain ⟨n, hn, hpush⟩ := saveV_push v bs hwf hb
      unfold Unserializer.load
      have hlen : (bs ++ [opcode.STOP]).length = bs.length + 1 := by simp
      rw [hlen]
      have heq : bs.length + 1 + 1 = (bs.length + 2 - n) + n := by omega
      rw [heq, hpush (bs.length + 2 - n) [opcode.STOP] []]
      obtain ⟨k, hkeq⟩ : ∃ k, bs.length + 2 - n = k + 1 := ⟨bs.length + 1 - n, by omega⟩
      rw [hkeq, opcodeEvalSTOP]
      exact loadLoop_stop_one k [] v

/-- A nested concrete value exercising every constructor of the grammar. -/
def roundtripWitnessValue : Value :=
  .list (VList.ofList
    [.none, .bool true, .bool false, .int (-7), .int 3000000000,
     .float 4614256656552045848, .bytes [0, 255, 17],
     .str [104, 233, 20013, 128512],
     .dict (VPairs.ofList [(.str [97], .int 1), (.int 2, .none)]),
     .tup (VList.ofList [.int 1, .str [122]]),
     .set (VList.ofList [.int 1, .int 2]),
     .frozenset (VList.ofList [.bytes []])])

/-- The exact wire bytes of `Serializer.save(roundtripWitnessValue)`. -/
def roundtripWitnessBytes : List Nat :=
  [75, 0, 0, 0, 12, 70, 0, 0, 0, 0, 76, 80, 70, 0, 0, 0, 1, 82, 80, 70, 0,
   0, 0, 2, 67, 80, 70, 0, 0, 0, 3, 70, 255, 255, 255, 249, 80, 70, 0, 0,
   0, 4, 72, 0, 0, 0, 10, 51, 48, 48, 48, 48, 48, 48, 48, 48, 48, 80, 70,
   0, 0, 0, 5, 68, 64, 9, 33, 251, 84, 68, 45, 24, 80, 70, 0, 0, 0, 6, 65,
   0, 0, 0, 3, 0, 255, 17, 80, 70, 0, 0, 0, 7, 78, 0, 0, 0, 10, 104, 195,
   169, 228, 184, 173, 240, 159, 152, 128, 80, 70, 0, 0, 0, 8, 74, 78, 0,
   0, 0, 1, 97, 70, 0, 0, 0, 1, 80, 70, 0, 0, 0, 2, 76, 80, 80, 70, 0, 0,
   0, 9, 70, 0, 0, 0, 1, 78, 0, 0, 0, 1, 122, 64, 0, 0, 0, 2, 80, 70, 0,
   0, 0, 10, 70, 0, 0, 0, 1, 70, 0, 0, 0, 2, 79, 0, 0, 0, 2, 80, 70, 0, 0,
   0, 11, 65, 0, 0, 0, 0, 69, 0, 0, 0, 1, 80, 81]

/-- Witness for C1 at a concrete nested value: it is well formed, `save`
produces the listed bytes, and `load` of those bytes returns the value. -/
theorem save_load_roundtrip_witness :
    Value.wf roundtripWitnessValue = true ∧
    Serializer.saveWithStop roundtripWitnessValue = .ok roundtripWitnessBytes ∧
    Unserializer.load roundtripWitnessBytes = .ok roundtripWitnessValue :=
  ⟨rfl, rfl, save_load_roundtrip roundtripWitnessValue roundtripWitnessBytes rfl rfl⟩

/-! ## Claim C2: the opcode table -/

/-- C2 counterexample: the claim says the opcode of a name is the ASCII
letter A (65) plus its alphabetical rank, so BUILDTUPLE (rank 0) would be
65.  `_buildopcodes` assigns `chr(64 + i)`, so BUILDTUPLE is 64, the
character `@`, not a letter at all. -/
theorem opcode_base_counterexample :
    opcodeTable.lookup "BUILDTUPLE" = some 64 ∧ (64 : Nat) ≠ 65 := by
  constructor
  · rw [opcodeTable_eval]; rfl
  · decide

/-- C2 amended: the single-byte opcode assigned to each of the 20 opcode
names is ASCII 64 (the character `@`) plus the name's rank in the
alphabetical ordering of those names — BUILDTUPLE maps to 64, BYTES to 65,
and so on up to UNICODE mapping to 83 — with assignment determined by
alphabetical order of the name, not by order of declaration (the
declaration-order assignment would give a different table). -/
theorem opcode_table_assignment :
    opcodeTable =
      [("BUILDTUPLE", 64), ("BYTES", 65), ("CHANNEL", 66), ("FALSE", 67),
       ("FLOAT", 68), ("FROZENSET", 69), ("INT", 70), ("LONG", 71),
       ("LONGINT", 72), ("LONGLONG", 73), ("NEWDICT", 74), ("NEWLIST", 75),
       ("NONE", 76), ("PY2STRING", 77), ("PY3STRING", 78), ("SET", 79),
       ("SETITEM", 80), ("STOP", 81), ("TRUE", 82), ("UNICODE", 83)] ∧
    assignOpcodes 0 loadOpNames ≠ opcodeTable ∧
    sortStrings loadOpNames ≠ loadOpNames := by
  refine ⟨opcodeTable_eval, ?_, ?_⟩ <;> decide

/-! ## Claim C3: write-on-success framing atomicity -/

/-- C3: if `Serializer.save(obj)` fails (for example with
`SerializationError` on an unserializable value or an over-long length
field), then no bytes at all are emitted to the transport: in the default
write-on-success mode the message is first encoded entirely into a local
buffer and a single transport write is performed only after encoding
succeeds. -/
theorem save_write_on_success_atomic :
    (∀ (v : Value) (e : SErr),
      (Serializer.save v).1 = .error e → (Serializer.save v).2 = []) ∧
    (∀ (v : Value), (Serializer.save v).1 = .ok () →
      ∃ bs, Serializer.saveWithStop v = .ok bs ∧ (Serializer.save v).2 = [bs]) := by
  constructor
  · intro v e h
    unfold Serializer.save at h ⊢
    cases hs : Serializer.saveWithStop v with
    | ok bs => rw [hs] at h; simp at h
    | error e2 => rfl
  · intro v h
    unfold Serializer.save at h ⊢
    cases hs : Serializer.saveWithStop v with
    | ok bs => exact ⟨bs, rfl, rfl⟩
    | error e2 => rw [hs] at h; simp at h

/-- Witness for C3: a text value holding a lone surrogate (U+D800) makes
`save` fail with the `SerializationError` from `_write_unicode_string`, and
no transport write happens; a serializable value makes exactly one write. -/
theorem save_write_on_success_atomic_witness :
    ((Serializer.save (.str [55296])).1 =
        .error (.serialization "strings must be utf-8 encodable") ∧
      (Serializer.save (.str [55296])).2 = []) ∧
    ((Serializer.save (.int 3)).1 = .ok () ∧
      (Serializer.save (.int 3)).2 = [[70, 0, 0, 0, 3, 81]]) :=
  ⟨⟨rfl, save_write_on_success_atomic.1 (.str [55296])
      (.serialization "strings must be utf-8 encodable") rfl⟩,
   ⟨rfl, by
      obtain ⟨bs, h1, h2⟩ := save_write_on_success_atomic.2 (.int 3) rfl
      obtain rfl : [70, 0, 0, 0, 3, 81] = bs := Except.ok.inj h1
      exact h2⟩⟩

/-! ## Claim C7: failure modes of Unserializer.load -/

/-- `load_stop` reached with a stack not holding exactly one value. -/
theorem stopOp_ne_one : ∀ (stack : List Value), stack.length ≠ 1 →
    Unserializer.stopOp stack = .error .stackMismatch
  | [], _ => rfl
  | [_], h => absurd rfl h
  | _ :: _ :: _, _ => rfl

/-- Generic STOP step: dispatch to `stopOp` whatever the stack holds. -/
theorem loadLoop_stop (fuel : Nat) (s : List Nat) (stack : List Value) :
    Unserializer.loadLoop (fuel + 1) (81 :: s) stack = Unserializer.stopOp stack := by
  rw [Unserializer.loadLoop]
  rw [if_neg (by decide : ¬(81 = opcode.NONE))]
  rw [if_neg (by decide : ¬(81 = opcode.TRUE))]
  rw [if_neg (by decide : ¬(81 = opcode.FALSE))]
  rw [if_neg (by decide : ¬(81 = opcode.INT ∨ 81 = opcode.LONG))]
  rw [if_neg (by decide : ¬(81 = opcode.LONGINT ∨ 81 = opcode.LONGLONG))]
  rw [if_neg (by decide : ¬(81 = opcode.FLOAT))]
  rw [if_neg (by decide : ¬(81 = opcode.PY3STRING ∨ 81 = opcode.UNICODE))]
  rw [if_neg (by decide : ¬(81 = opcode.PY2STRING))]
  rw [if_neg (by decide : ¬(81 = opcode.BYTES))]
  rw [if_neg (by decide : ¬(81 = opcode.NEWLIST))]
  rw [if_neg (by decide : ¬(81 = opcode.SETITEM))]
  rw [if_neg (by decide : ¬(81 = opcode.NEWDICT))]
  rw [if_neg (by decide : ¬(81 = opcode.BUILDTUPLE))]
  rw [if_neg (by decide : ¬(81 = opcode.SET))]
  rw [if_neg (by decide : ¬(81 = opcode.FROZENSET))]
  rw [if_pos (by decide : 81 = opcode.STOP)]

/-- Dispatch on a byte outside the table raises the unknown-opcode
`UnserializationError`. -/
theorem loadLoop_unknown (fuel : Nat) (b : Nat) (s : List Nat) (stack : List Value)
    (h : b < 64 ∨ 84 ≤ b) :
    Unserializer.loadLoop (fuel + 1) (b :: s) stack = .error (.unknownOpcode b) := by
  rw [Unserializer.loadLoop]
  rw [if_neg (by rw [opcodeEvalNONE]; omega)]
  rw [if_neg (by rw [opcodeEvalTRUE]; omega)]
  rw [if_neg (by rw [opcodeEvalFALSE]; omega)]
  rw [if_neg (by rw [opcodeEvalINT, opcodeEvalLONG]; omega)]
  rw [if_neg (by rw [opcodeEvalLONGINT, opcodeEvalLONGLONG]; omega)]
  rw [if_neg (by rw [opcodeEvalFLOAT]; omega)]
  rw [if_neg (by rw [opcodeEvalPY3STRING, opcodeEvalUNICODE]; omega)]
  rw [if_neg (by rw [opcodeEvalPY2STRING]; omega)]
  rw [if_neg (by rw [opcodeEvalBYTES]; omega)]
  rw [if_neg (by rw [opcodeEvalNEWLIST]; omega)]
  rw [if_neg (by rw [opcodeEvalSETITEM]; omega)]
  rw [if_neg (by rw [opcodeEvalNEWDICT]; omega)]
  rw [if_neg (by rw [opcodeEvalBUILDTUPLE]; omega)]
  rw [if_neg (by rw [opcodeEvalSET]; omega)]
  rw [if_neg (by rw [opcodeEvalFROZENSET]; omega)]
  rw [if_neg (by rw [opcodeEvalSTOP]; omega)]
  rw [if_neg (by rw [opcodeEvalCHANNEL]; omega)]

/-- C7 counterexample: the claim says a stream truncated before STOP makes
`load` raise `UnserializationError`; in the code the truncated read raises
the `EOFError` of `Popen2IO.read` (`load` re-raises `EOFError` itself on an
empty opcode read), which is not an `UnserializationError`. -/
theorem load_truncated_counterexample :
    Unserializer.load [] = .error .eof ∧
    LErr.isUnserializationError .eof = false := ⟨rfl, rfl⟩

/-- C7 amended: `Unserializer.load` raises `UnserializationError` for an
opcode byte not in the opcode table and for a STOP reached when the value
stack does not hold exactly one value; a stream truncated before STOP
raises `EOFError` instead (at the opcode read, or inside a payload read
such as INT); and on a well-formed stream the single remaining stack value
is returned at STOP. -/
theorem load_failure_modes :
    (∀ (b : Nat) (s : List Nat), b < 64 ∨ 84 ≤ b →
      Unserializer.load (b :: s) = .error (.unknownOpcode b) ∧
      LErr.isUnserializationError (.unknownOpcode b) = true) ∧
    (Unserializer.load [] = .error .eof ∧
     (∀ (p : List Nat), p.length < 4 → Unserializer.load (70 :: p) = .error .eof) ∧
     LErr.isUnserializationError .eof = false) ∧
    (∀ (fuel : Nat) (s : List Nat) (stack : List Value), stack.length ≠ 1 →
      Unserializer.loadLoop (fuel + 1) (81 :: s) stack = .error .stackMismatch ∧
      LErr.isUnserializationError .stackMismatch = true) ∧
    (∀ (fuel : Nat) (s : List Nat) (v : Value),
      Unserializer.loadLoop (fuel + 1) (81 :: s) [v] = .ok v) := by
  refine ⟨?_, ⟨rfl, ?_, rfl⟩, ?_, ?_⟩
  · intro b s h
    refine ⟨?_, rfl⟩
    unfold Unserializer.load
    rw [List.length_cons]
    exact loadLoop_unknown (s.length + 1) b s [] h
  · intro p h
    unfold Unserializer.load
    rw [List.length_cons]
    rw [Unserializer.loadLoop]
    rw [if_neg (by decide : ¬(70 = opcode.NONE))]
    rw [if_neg (by decide : ¬(70 = opcode.TRUE))]
    rw [if_neg (by decide : ¬(70 = opcode.FALSE))]
    rw [if_pos (by decide : 70 = opcode.INT ∨ 70 = opcode.LONG)]
    have : Unserializer.readInt4 p = .error .eof := by
      unfold Unserializer.readInt4
      rw [if_neg (by omega)]
    rw [this]
  · intro fuel s stack h
    exact ⟨by rw [loadLoop_stop, stopOp_ne_one stack h], rfl⟩
  · intro fuel s v
    exact loadLoop_stop_one fuel s v

/-- Witness for C7 (amended) at concrete inputs: unknown byte 99, the
empty and the truncated-INT streams, a STOP on an empty stack, and a STOP
on a one-value stack. -/
theorem load_failure_modes_witness :
    (Unserializer.load [99] = .error (.unknownOpcode 99) ∧
      LErr.isUnserializationError (.unknownOpcode 99) = true) ∧
    Unserializer.load [70, 1, 2] = .error .eof ∧
    (Unserializer.loadLoop 1 [81] [] = .error .stackMismatch ∧
      LErr.isUnserializationError .stackMismatch = true) ∧
    Unserializer.loadLoop 1 [81] [.none] = .ok .none :=
  ⟨load_failure_modes.1 99 [] (by decide),
   load_failure_modes.2.1.2.1 [1, 2] (by decide),
   load_failure_modes.2.2.1 0 [] [] (by decide),
   load_failure_modes.2.2.2 0 [] .none⟩

/-! ## Claim C10: the integral encoder has no lower-bound check -/

/-- C10: `Serializer._save_integral` selects the 4-byte INT encoding for
every integer `i <= 2147483647` and performs no lower-bound check: for i in
[-2^31, 2^31-1] it writes the INT opcode plus 4 big-endian bytes, for
i > 2^31-1 it writes LONGINT plus a length-prefixed ASCII decimal, but for
any i < -2^31 the 4-byte branch is still taken and the struct packing
fails with an exception that is not a SerializationError. -/
theorem save_integral_branches :
    (∀ (i : Int), -2147483648 ≤ i → i ≤ 2147483647 →
      Serializer.save_integral i opcode.INT opcode.LONGINT =
        .ok (opcode.INT :: encodeInt4 i)) ∧
    (∀ (i : Int), 2147483647 < i → (asciiDecimal i.toNat).length ≤ 2147483647 →
      Serializer.save_integral i opcode.INT opcode.LONGINT =
        .ok (opcode.LONGINT ::
          (encodeInt4 ((asciiDecimal i.toNat).length : Int) ++ asciiDecimal i.toNat))) ∧
    (∀ (i : Int), i < -2147483648 →
      Serializer.save_integral i opcode.INT opcode.LONGINT = .error .structError ∧
      ∀ (msg : String), (SErr.structError : SErr) ≠ .serialization msg) := by
  refine ⟨?_, ?_, ?_⟩
  · intro i hlo hhi
    unfold Serializer.save_integral Serializer.write_int4
    rw [if_pos (by simp only [FOUR_BYTE_INT_MAX]; omega)]
    rw [if_neg (by simp only [FOUR_BYTE_INT_MAX]; omega)]
    rw [if_neg (by omega)]
    rfl
  · intro i hlo hlen
    unfold Serializer.save_integral Serializer.write_byte_sequence Serializer.write_int4
    rw [if_neg (by simp only [FOUR_BYTE_INT_MAX]; omega)]
    rw [if_neg (by simp only [FOUR_BYTE_INT_MAX]; omega :
      ¬(((asciiDecimal i.toNat).length : Int) > FOUR_BYTE_INT_MAX))]
    rw [if_neg (by omega : ¬(((asciiDecimal i.toNat).length : Int) < -2147483648))]
    rfl
  · intro i hlo
    refine ⟨?_, fun msg h => by cases h⟩
    unfold Serializer.save_integral Serializer.write_int4
    rw [if_pos (by simp only [FOUR_BYTE_INT_MAX]; omega)]
    rw [if_neg (by simp only [FOUR_BYTE_INT_MAX]; omega)]
    rw [if_pos (by omega)]
    rfl

/-- Witness for C10 at -7 (4-byte branch), 2^31 (decimal branch) and
-2^31-1 (struct.error, not a SerializationError). -/
theorem save_integral_branches_witness :
    Serializer.save_integral (-7) opcode.INT opcode.LONGINT =
        .ok [70, 255, 255, 255, 249] ∧
    Serializer.save_integral 2147483648 opcode.INT opcode.LONGINT =
        .ok [72, 0, 0, 0, 10, 50, 49, 52, 55, 52, 56, 51, 54, 52, 56] ∧
    Serializer.save_integral (-2147483649) opcode.INT opcode.LONGINT =
        .error .structError := by
  refine ⟨?_, ?_, (save_integral_branches.2.2 (-2147483649) (by decide)).1⟩
  · have := save_integral_branches.1 (-7) (by decide) (by decide)
    rw [this]; rfl
  · have := save_integral_branches.2.1 2147483648 (by decide) (by decide)
    rw [this]; rfl

/-! ## Channel model

State of one `Channel` object and of the `ChannelFactory` maps, plus the
observable events (wire messages handed to `gateway._send`, callback
invocations, `RemoteError.warn()` writes to stderr).  Queues are lists
with the front at the head; `items = none` models `self._items = None`
(callback mode).  Remote errors are carried by their formatted text. -/

/-- Exceptions raised by the channel methods. -/
inductive Exc where
  | ioErr (msg : String)
  | eofErr (msg : String)
  | timeoutErr
  | remoteErr (formatted : String)
deriving DecidableEq

/-- An entry of the `items` queue: a data item or the `ENDMARKER` sentinel. -/
inductive QItem where
  | item (v : Value)
  | endmarker
deriving DecidableEq

/-- The `error` argument of `Channel.close`: a plain text (traceback) or a
`RemoteError` instance (only the latter is appended to `_remoteerrors`). -/
inductive ErrPayload where
  | text (s : String)
  | remote (formatted : String)
deriving DecidableEq

structure ChannelState where
  id : Int
  items : Option (List QItem)
  closed : Bool
  receiveclosed : Bool
  remoteerrors : List String
  executing : Bool
deriving DecidableEq

/-- The two `ChannelFactory` maps: the (weak) id set of `_channels`, and
`_callbacks` as an association list id to registered endmarker
(`none` = `NO_ENDMARKER_WANTED`; the callback function itself is elided,
its invocations appear as events). -/
structure Factory where
  channels : List Int
  callbacks : List (Int × Option Value)
deriving DecidableEq

inductive WireMsg where
  | CHANNEL_CLOSE (id : Int)
  | CHANNEL_CLOSE_ERROR (id : Int) (err : ErrPayload)
  | CHANNEL_LAST_MESSAGE (id : Int)
  | CHANNEL_DATA (id : Int) (data : Value)
deriving DecidableEq

/-- Observable effects of the channel operations. -/
inductive Ev where
  | sent (m : WireMsg)
  | cbCall (id : Int) (arg : Value)
  | warned (formatted : String)
deriving DecidableEq

/-- The wire messages among a list of events. -/
def sentEvents (evs : List Ev) : List WireMsg :=
  evs.filterMap (fun e => match e with | .sent m => some m | _ => none)

/-- `ChannelFactory._no_longer_opened`: drop the id from `_channels`
(ignoring a missing key), pop its callback registration, and fire the
registered endmarker if one was wanted. -/
def Factory.no_longer_opened (fac : Factory) (id : Int) : Factory × List Ev :=
  let channels2 := fac.channels.filter (fun c => c ≠ id)
  match fac.callbacks.lookup id with
  | Option.none => ({ channels := channels2, callbacks := fac.callbacks }, [])
  | some em =>
      ({ channels := channels2, callbacks := fac.callbacks.filter (fun p => p.1 ≠ id) },
       match em with
       | Option.none => []
       | some e => [.cbCall id e])

/-- `Channel.__init__`: a fresh channel has a queue, is open, and holds no
remote errors. -/
def Channel.init (id : Int) : ChannelState :=
  { id := id
    items := some []
    closed := false
    receiveclosed := false
    remoteerrors := []
    executing := false }

/-- `Channel.close(error=None)`.  Fails inside remote_exec; is a no-op on a
closed channel; otherwise sends `CHANNEL_CLOSE` / `CHANNEL_CLOSE_ERROR`
only when the other side did not already trigger a close
(`_receiveclosed` not set), records a `RemoteError` argument, marks the
channel closed, pushes the end-marker when a queue exists, and drops the
id from the factory. -/
def Channel.close (ch : ChannelState) (error : Option ErrPayload) (fac : Factory) :
    Except Exc (ChannelState × Factory × List Ev) :=
  if ch.executing then
    .error (.ioErr "cannot explicitly close channel within remote_exec")
  else if ch.closed then .ok (ch, fac, [])
  else
    let sendEvs : List Ev :=
      if ch.receiveclosed then []
      else [match error with
            | some e => .sent (.CHANNEL_CLOSE_ERROR ch.id e)
            | Option.none => .sent (.CHANNEL_CLOSE ch.id)]
    let rerrs := ch.remoteerrors ++
      (match error with | some (.remote f) => [f] | _ => [])
    let items2 := ch.items.map (fun q => q ++ [QItem.endmarker])
    let r := fac.no_longer_opened ch.id
    .ok ({ ch with
            closed := true
            receiveclosed := true
            remoteerrors := rerrs
            items := items2 }, r.1, sendEvs ++ r.2)

/-- `Channel._getremoteerror`: pop the first queued remote error; else
return the gateway `_error` (the `EOFError` recorded by the receiver
thread at EOF, its message given here), else nothing. -/
def Channel.getremoteerror (ch : ChannelState) (gwEofError : Option String) :
    Option Exc × ChannelState :=
  match ch.remoteerrors with
  | e :: rest => (some (.remoteErr e), { ch with remoteerrors := rest })
  | [] =>
      match gwEofError with
      | some m => (some (.eofErr m), ch)
      | Option.none => (Option.none, ch)

/-- Result of one `Channel.receive` call.  `wouldBlock` models the
periodic-wakeup retry on an empty queue with a negative timeout (the call
blocks and loops; no state changes and nothing is raised yet). -/
inductive RecvResult where
  | got (v : Value)
  | raised (e : Exc)
  | wouldBlock
deriving DecidableEq

/-- `Channel.receive(timeout)`. -/
def Channel.receive (ch : ChannelState) (timeout : Int) (gwEofError : Option String) :
    RecvResult × ChannelState :=
  match ch.items with
  | Option.none => (.raised (.ioErr "cannot receive(), channel has receiver callback"), ch)
  | some [] =>
      if timeout < 0 then (.wouldBlock, ch)
      else (.raised .timeoutErr, ch)
  | some (QItem.endmarker :: rest) =>
      let ch1 : ChannelState := { ch with items := some (rest ++ [QItem.endmarker]) }
      let r : Option Exc × ChannelState := Channel.getremoteerror ch1 gwEofError
      (.raised (r.1.getD (.eofErr "")), r.2)
  | some (QItem.item v :: rest) => (.got v, { ch with items := some rest })

/-- The drain loop of `Channel.setcallback`: pop queued items into the
callback; on the end-marker put it back and fire the endmarker (if wanted)
without registering; on an empty queue register the callback unless the
channel is already closed or receive-closed. -/
def Channel.setcallbackDrain (chid : Int) (closedOrRc : Bool) (endmarker : Option Value)
    (fac : Factory) : List QItem → Factory × List Ev
  | [] =>
      if closedOrRc then (fac, [])
      else ({ fac with callbacks :=
                fac.callbacks.filter (fun p => p.1 ≠ chid) ++ [(chid, endmarker)] }, [])
  | QItem.endmarker :: _ =>
      (fac, match endmarker with
            | some e => [Ev.cbCall chid e]
            | Option.none => [])
  | QItem.item v :: rest =>
      let r := Channel.setcallbackDrain chid closedOrRc endmarker fac rest
      (r.1, Ev.cbCall chid v :: r.2)

/-- `Channel.setcallback(callback, endmarker)` (under the receive lock):
fail if a callback is already registered (`items is None`), else set
`items` to `None` and drain. -/
def Channel.setcallback (ch : ChannelState) (endmarker : Option Value) (fac : Factory) :
    Except Exc (ChannelState × Factory × List Ev) :=
  match ch.items with
  | Option.none => .error (.ioErr "has callback already registered")
  | some q =>
      let r := Channel.setcallbackDrain ch.id (ch.closed || ch.receiveclosed) endmarker fac q
      .ok ({ ch with items := Option.none }, r.1, r.2)

/-- `gateway._send` as seen by the finalizer: succeeds with a `sent` event,
or raises `IOError` when the transport is down. -/
def gwSend (transportOk : Bool) (m : WireMsg) : Except Exc Ev :=
  if transportOk then .ok (.sent m) else .error (.ioErr "write pipe closed")

/-- `Channel.__del__`: on a closed channel warn each queued remote error;
on a sendonly channel do nothing; on an open channel send
`CHANNEL_LAST_MESSAGE` when a callback was installed (`items is None`)
else `CHANNEL_CLOSE`, swallowing `IOError`/`ValueError` from the send. -/
def Channel.del (ch : ChannelState) (transportOk : Bool) : List Ev :=
  if ch.closed then ch.remoteerrors.map (fun f => Ev.warned f)
  else if ch.receiveclosed then []
  else
    let msg := if ch.items.isNone then WireMsg.CHANNEL_LAST_MESSAGE ch.id
               else WireMsg.CHANNEL_CLOSE ch.id
    match gwSend transportOk msg with
    | .ok ev => [ev]
    | .error _ => []

/-- Gateway state read by the `STATUS` handler. -/
structure GatewayView where
  execqsize : Nat
  channels : List ChannelState
deriving DecidableEq

/-- A python string literal as a `Value`. -/
def strV (s : String) : Value := .str (s.data.map Char.toNat)

/-- `STATUS.received`: reply on the sender's channel id with the status
dict; the factory is used read-only (`channels()` snapshot), no channel
object is created for the id. -/
def STATUS.received (senderChannelid : Int) (g : GatewayView) (fac : Factory) :
    List WireMsg × Factory :=
  let active := g.channels
  let numexec := active.countP (fun ch => ch.executing)
  let d : Value := .dict (VPairs.ofList
    [(strV "execqsize", .int g.execqsize),
     (strV "numchannels", .int active.length),
     (strV "numexecuting", .int numexec)])
  ([.CHANNEL_DATA senderChannelid d], fac)

/-- Is a callback registered for this id? -/
def hasCallback (fac : Factory) (id : Int) : Bool :=
  fac.callbacks.any (fun p => p.1 = id)

/-- The queue-xor-callback invariant of the specification: a channel has
either an items queue or a registered callback, never both, never
neither. -/
def queueXorCallback (ch : ChannelState) (fac : Factory) : Bool :=
  xor ch.items.isSome (hasCallback fac ch.id)

/-! ## Claim C4: Channel.close -/

/-- The events produced by a successful `Channel.close` call. -/
def closeEvents (ch : ChannelState) (error : Option ErrPayload) (fac : Factory) : List Ev :=
  match Channel.close ch error fac with
  | .ok r => r.2.2
  | .error _ => []

/-- A channel in the sendonly state: the peer already closed its receive
end (`_receiveclosed` set by `CHANNEL_LAST_MESSAGE`), but the channel is
not closed and not executing. -/
def sendonlyChannel : ChannelState :=
  { id := 5
    items := some []
    closed := false
    receiveclosed := true
    remoteerrors := []
    executing := false }

def sendonlyFactory : Factory := { channels := [5], callbacks := [] }

/-- C4 counterexample: on a sendonly channel (not executing, not closed —
so the claim's "otherwise" branch applies) `close()` emits no message at
all, because the code only sends when `_receiveclosed` is not set ("if the
other side triggered a close already, we do not send back a closed
message"); the claim says `CHANNEL_CLOSE` is emitted. -/
theorem close_sendonly_counterexample :
    sendonlyChannel.executing = false ∧ sendonlyChannel.closed = false ∧
    (Channel.close sendonlyChannel Option.none sendonlyFactory).isOk = true ∧
    sentEvents (closeEvents sendonlyChannel Option.none sendonlyFactory) = [] :=
  ⟨rfl, rfl, rfl, rfl⟩

/-- C4 amended: for every channel and local `Channel.close(error)` call:
if the channel is executing the call fails with an IOError; if the channel
is already closed the call is a no-op; otherwise it sets closed, sets
receive_closed, pushes the end-marker onto the items queue when one
exists, removes the channel id from the factory, and emits `CHANNEL_CLOSE`
(or `CHANNEL_CLOSE_ERROR` when error is not None) only when receive_closed
was not already set. -/
theorem close_behavior :
    (∀ (ch : ChannelState) (error : Option ErrPayload) (fac : Factory),
      ch.executing = true →
      Channel.close ch error fac =
        .error (.ioErr "cannot explicitly close channel within remote_exec")) ∧
    (∀ (ch : ChannelState) (error : Option ErrPayload) (fac : Factory),
      ch.executing = false → ch.closed = true →
      Channel.close ch error fac = .ok (ch, fac, [])) ∧
    (∀ (ch : ChannelState) (error : Option ErrPayload) (fac : Factory),
      ch.executing = false → ch.closed = false →
      ∃ r, Channel.close ch error fac = .ok r ∧
        r.1.closed = true ∧ r.1.receiveclosed = true ∧
        r.1.items = ch.items.map (fun q => q ++ [QItem.endmarker]) ∧
        r.2.1.channels = fac.channels.filter (fun c => c ≠ ch.id) ∧
        sentEvents r.2.2 =
          (if ch.receiveclosed then []
           else [(match error with
                  | some e => WireMsg.CHANNEL_CLOSE_ERROR ch.id e
                  | Option.none => WireMsg.CHANNEL_CLOSE ch.id)])) := by
  refine ⟨?_, ?_, ?_⟩
  · intro ch error fac hexec
    unfold Channel.close
    rw [if_pos hexec]
  · intro ch error fac hexec hclosed
    unfold Channel.close
    rw [if_neg (by simp [hexec]), if_pos hclosed]
  · intro ch error fac hexec hclosed
    unfold Channel.close
    rw [if_neg (by simp [hexec]), if_neg (by simp [hclosed])]
    refine ⟨_, rfl, by simp, by simp, by simp, ?_, ?_⟩
    · unfold Factory.no_longer_opened
      cases fac.callbacks.lookup ch.id <;> simp
    · unfold sentEvents
      rw [List.filterMap_append]
      have h2 : (Factory.no_longer_opened fac ch.id).2.filterMap
          (fun e => match e with | .sent m => some m | _ => none) = [] := by
        unfold Factory.no_longer_opened
        cases fac.callbacks.lookup ch.id with
        | none => simp
        | some em => cases em <;> simp
      rw [h2, List.append_nil]
      cases error <;> cases hrc : ch.receiveclosed <;> simp

/-- A channel bound to a running remote_exec body. -/
def executingChannelW : ChannelState :=
  { id := 1
    items := some []
    closed := false
    receiveclosed := false
    remoteerrors := []
    executing := true }

/-- An already-closed channel. -/
def closedChannelW : ChannelState :=
  { id := 2
    items := some []
    closed := true
    receiveclosed := true
    remoteerrors := []
    executing := false }

def factoryW7 : Factory := { channels := [7], callbacks := [] }

/-- Witness for C4 (amended) on three concrete channels: one executing,
one already closed, one open with an empty receive queue. -/
theorem close_behavior_witness :
    Channel.close executingChannelW Option.none { channels := [1], callbacks := [] } =
      .error (.ioErr "cannot explicitly close channel within remote_exec") ∧
    Channel.close closedChannelW Option.none { channels := [], callbacks := [] } =
      .ok (closedChannelW, { channels := [], callbacks := [] }, []) ∧
    ∃ r, Channel.close (Channel.init 7) Option.none factoryW7 = .ok r ∧
      sentEvents r.2.2 = [WireMsg.CHANNEL_CLOSE 7] ∧
      r.1.closed = true ∧ r.1.items = some [QItem.endmarker] ∧
      r.2.1.channels = [] := by
  refine ⟨close_behavior.1 executingChannelW Option.none _ rfl,
    close_behavior.2.1 closedChannelW Option.none _ rfl rfl, ?_⟩
  obtain ⟨r, hr, h1, h2, h3, h4, h5⟩ :=
    close_behavior.2.2 (Channel.init 7) Option.none factoryW7 rfl rfl
  refine ⟨r, hr, ?_, h1, ?_, ?_⟩
  · rw [h5]; rfl
  · rw [h3]; rfl
  · rw [h4]; rfl

/-! ## Claim C5: Channel.receive -/

/-- C5: `Channel.receive(timeout)` raises IOError whenever a callback is
installed on the channel (`items` is `None`); when the dequeued item is
the end-marker, the end-marker is pushed back onto the queue for other
receivers and then the first queued RemoteError is raised if one exists,
else an EOFError (the gateway's recorded EOF error or a fresh one); and a
positive timeout that expires with no item available raises TimeoutError
while leaving the queue contents (and the whole channel state)
undisturbed. -/
theorem receive_behavior :
    (∀ (ch : ChannelState) (t : Int) (gw : Option String),
      ch.items = Option.none →
      Channel.receive ch t gw =
        (.raised (.ioErr "cannot receive(), channel has receiver callback"), ch)) ∧
    (∀ (ch : ChannelState) (t : Int) (gw : Option String) (rest : List QItem),
      ch.items = some (QItem.endmarker :: rest) →
      (Channel.receive ch t gw).2.items = some (rest ++ [QItem.endmarker]) ∧
      (match ch.remoteerrors with
       | e :: _ => (Channel.receive ch t gw).1 = .raised (.remoteErr e)
       | [] => ∃ m, (Channel.receive ch t gw).1 = .raised (.eofErr m))) ∧
    (∀ (ch : ChannelState) (t : Int) (gw : Option String),
      ch.items = some [] → 0 < t →
      Channel.receive ch t gw = (.raised .timeoutErr, ch)) := by
  refine ⟨?_, ?_, ?_⟩
  · intro ch t gw hitems
    unfold Channel.receive
    rw [hitems]
  · intro ch t gw rest hitems
    unfold Channel.receive
    rw [hitems]
    unfold Channel.getremoteerror
    cases hre : ch.remoteerrors with
    | cons e tl => simp [hre]
    | nil =>
        cases gw with
        | none => simp [hre]
        | some m => simp [hre]
  · intro ch t gw hitems ht
    unfold Channel.receive
    rw [hitems]
    rw [if_neg (by omega)]

/-- A channel with an installed callback (`items` is `None`). -/
def cbChannelW : ChannelState :=
  { id := 1
    items := Option.none
    closed := false
    receiveclosed := false
    remoteerrors := []
    executing := false }

/-- A closed channel whose queue holds the end-marker, with one queued
remote error. -/
def endErrChannelW : ChannelState :=
  { id := 2
    items := some [QItem.endmarker]
    closed := true
    receiveclosed := true
    remoteerrors := ["boom"]
    executing := false }

/-- A closed channel whose queue holds the end-marker, with no remote
errors. -/
def endChannelW : ChannelState :=
  { id := 3
    items := some [QItem.endmarker]
    closed := true
    receiveclosed := true
    remoteerrors := []
    executing := false }

/-- An open channel with an empty queue. -/
def emptyChannelW : ChannelState :=
  { id := 4
    items := some []
    closed := false
    receiveclosed := false
    remoteerrors := []
    executing := false }

/-- Witness for C5 at concrete channels: a callback channel, end-marker
channels with and without a queued remote error, and an empty queue with
timeout 1. -/
theorem receive_behavior_witness :
    Channel.receive cbChannelW (-1) Option.none =
      (.raised (.ioErr "cannot receive(), channel has receiver callback"),
       cbChannelW) ∧
    ((Channel.receive endErrChannelW (-1) Option.none).1 =
        .raised (.remoteErr "boom") ∧
     (Channel.receive endErrChannelW (-1) Option.none).2.items =
        some [QItem.endmarker]) ∧
    (∃ m, (Channel.receive endChannelW (-1) Option.none).1 =
        .raised (.eofErr m)) ∧
    Channel.receive emptyChannelW 1 Option.none =
      (.raised .timeoutErr, emptyChannelW) := by
  refine ⟨receive_behavior.1 cbChannelW (-1) Option.none rfl, ⟨?_, ?_⟩, ?_, ?_⟩
  · exact (receive_behavior.2.1 endErrChannelW (-1) Option.none [] rfl).2
  · exact (receive_behavior.2.1 endErrChannelW (-1) Option.none [] rfl).1
  · exact (receive_behavior.2.1 endChannelW (-1) Option.none [] rfl).2
  · exact receive_behavior.2.2 emptyChannelW 1 Option.none rfl (by decide)

/-! ## Claim C6: the queue-xor-callback invariant -/

/-- A closed channel whose queue holds the end-marker (the state any
channel is left in by `close` / `_local_close`). -/
def closedDrainChannel : ChannelState :=
  { id := 1
    items := some [QItem.endmarker]
    closed := true
    receiveclosed := true
    remoteerrors := []
    executing := false }

def emptyFactory : Factory := { channels := [], callbacks := [] }

/-- C6 counterexample: the claim says the queue-xor-callback invariant
also holds after `setcallback` on a channel that is already closed or
receive-closed.  On a closed channel the drain loop hits the end-marker
and breaks without registering the callback, while `_items` has already
been set to `None`: the channel ends with neither a queue nor a callback,
and the invariant is false. -/
theorem setcallback_closed_counterexample :
    queueXorCallback closedDrainChannel emptyFactory = true ∧
    (match Channel.setcallback closedDrainChannel Option.none emptyFactory with
     | .ok r => queueXorCallback r.1 r.2.1
     | .error _ => true) = false :=
  ⟨rfl, rfl⟩

/-- The drain loop does not touch the callback map when the channel is
closed or receive-closed. -/
theorem setcallbackDrain_noreg (chid : Int) (em : Option Value) (fac : Factory) :
    ∀ (q : List QItem), (Channel.setcallbackDrain chid true em fac q).1 = fac
  | [] => rfl
  | QItem.endmarker :: _ => rfl
  | QItem.item v :: rest => by
      unfold Channel.setcallbackDrain
      exact setcallbackDrain_noreg chid em fac rest

/-- The drain loop of an open channel over an end-marker-free queue
registers the callback. -/
theorem setcallbackDrain_register (chid : Int) (em : Option Value) (fac : Factory) :
    ∀ (q : List QItem), QItem.endmarker ∉ q →
      (Channel.setcallbackDrain chid false em fac q).1 =
        { fac with callbacks :=
            fac.callbacks.filter (fun p => p.1 ≠ chid) ++ [(chid, em)] }
  | [], _ => by unfold Channel.setcallbackDrain; rw [if_neg (by simp)]
  | QItem.endmarker :: _, hmem => absurd (List.mem_cons_self _ _) hmem
  | QItem.item v :: rest, hmem => by
      unfold Channel.setcallbackDrain
      exact setcallbackDrain_register chid em fac rest
        (fun hm => hmem (List.mem_cons_of_mem _ hm))

/-- C6 amended: a channel is created with a queue and no callback, so the
invariant (either an items queue or a registered callback, never both,
never neither) holds at creation; `setcallback` on an open channel whose
queue holds no end-marker drains the queue, replaces it with a registered
callback, and preserves the invariant; but `setcallback` on a channel that
is already closed or receive-closed leaves the channel with neither a
queue nor a callback, breaking the invariant. -/
theorem queue_xor_callback_invariant :
    (∀ (id : Int) (fac : Factory), hasCallback fac id = false →
      queueXorCallback (Channel.init id) fac = true) ∧
    (∀ (ch : ChannelState) (em : Option Value) (fac : Factory) (q : List QItem),
      ch.items = some q → ch.closed = false → ch.receiveclosed = false →
      QItem.endmarker ∉ q →
      ∃ r, Channel.setcallback ch em fac = .ok r ∧
        r.1.items = Option.none ∧ hasCallback r.2.1 ch.id = true ∧
        queueXorCallback r.1 r.2.1 = true) ∧
    (∀ (ch : ChannelState) (em : Option Value) (fac : Factory) (q : List QItem),
      ch.items = some q → (ch.closed = true ∨ ch.receiveclosed = true) →
      ∃ r, Channel.setcallback ch em fac = .ok r ∧
        r.1.items = Option.none ∧ r.2.1 = fac ∧
        (hasCallback fac ch.id = false → queueXorCallback r.1 r.2.1 = false)) := by
  refine ⟨?_, ?_, ?_⟩
  · intro id fac hcb
    unfold queueXorCallback Channel.init
    simp [hcb]
  · intro ch em fac q hitems hclosed hrc hmem
    unfold Channel.setcallback
    rw [hitems]
    have hdrain := setcallbackDrain_register ch.id em fac q hmem
    rw [hclosed, hrc]
    simp only [Bool.or_self]
    refine ⟨_, rfl, by simp, ?_, ?_⟩
    · rw [hdrain]
      unfold hasCallback
      simp
    · unfold queueXorCallback
      rw [hdrain]
      unfold hasCallback
      simp
  · intro ch em fac q hitems hcr
    unfold Channel.setcallback
    rw [hitems]
    have hor : (ch.closed || ch.receiveclosed) = true := by
      rcases hcr with h | h <;> simp [h]
    rw [hor]
    have hdrain := setcallbackDrain_noreg ch.id em fac q
    refine ⟨_, rfl, by simp, by rw [hdrain], ?_⟩
    intro hcb
    unfold queueXorCallback
    rw [hdrain]
    simp [hcb]

/-- Witness for C6 (amended): a fresh channel with an empty factory, a
fresh open channel receiving a callback, and the closed channel of the
counterexample. -/
theorem queue_xor_callback_invariant_witness :
    queueXorCallback (Channel.init 3) emptyFactory = true ∧
    (∃ r, Channel.setcallback (Channel.init 3) Option.none emptyFactory = .ok r ∧
      r.1.items = Option.none ∧ hasCallback r.2.1 3 = true ∧
      queueXorCallback r.1 r.2.1 = true) ∧
    (∃ r, Channel.setcallback closedDrainChannel Option.none emptyFactory = .ok r ∧
      r.1.items = Option.none ∧ r.2.1 = emptyFactory ∧
      (hasCallback emptyFactory 1 = false → queueXorCallback r.1 r.2.1 = false)) :=
  ⟨queue_xor_callback_invariant.1 3 emptyFactory rfl,
   queue_xor_callback_invariant.2.1 (Channel.init 3) Option.none emptyFactory []
     rfl rfl rfl (by simp),
   queue_xor_callback_invariant.2.2 closedDrainChannel Option.none emptyFactory
     [QItem.endmarker] rfl (Or.inl rfl)⟩

/-! ## Claim C8: the finalizer -/

/-- C8: dropping the last strong reference to a channel that is still open
causes exactly one message to be emitted on the wire: CHANNEL_LAST_MESSAGE
if a callback was installed (`items is None`), otherwise CHANNEL_CLOSE; if
the channel was already closed, no message is emitted and each queued
remote error is written once as a warning to stderr; transport errors
during this finalization are swallowed (`Channel.del` is total and emits
nothing when the send raises). -/
theorem del_finalizer :
    (∀ (ch : ChannelState), ch.closed = false → ch.receiveclosed = false →
      Channel.del ch true =
        [.sent (if ch.items.isNone then WireMsg.CHANNEL_LAST_MESSAGE ch.id
                else WireMsg.CHANNEL_CLOSE ch.id)]) ∧
    (∀ (ch : ChannelState) (transportOk : Bool), ch.closed = true →
      Channel.del ch transportOk = ch.remoteerrors.map (fun f => Ev.warned f) ∧
      sentEvents (Channel.del ch transportOk) = []) ∧
    (∀ (ch : ChannelState), ch.closed = false → ch.receiveclosed = false →
      Channel.del ch false = []) := by
  refine ⟨?_, ?_, ?_⟩
  · intro ch hclosed hrc
    unfold Channel.del gwSend
    rw [if_neg (by simp [hclosed]), if_neg (by simp [hrc])]
    simp
  · intro ch transportOk hclosed
    unfold Channel.del
    rw [if_pos hclosed]
    refine ⟨rfl, ?_⟩
    unfold sentEvents
    induction ch.remoteerrors with
    | nil => rfl
    | cons e tl ih => simp
    
  · intro ch hclosed hrc
    unfold Channel.del gwSend
    rw [if_neg (by simp [hclosed]), if_neg (by simp [hrc])]
    simp

/-- Witness for C8: an open queue channel (CHANNEL_CLOSE), an open
callback channel (CHANNEL_LAST_MESSAGE), a closed channel with two queued
remote errors (two warnings, nothing sent), and an open channel over a
dead transport (nothing emitted, no exception). -/
theorem del_finalizer_witness :
    Channel.del emptyChannelW true = [.sent (WireMsg.CHANNEL_CLOSE 4)] ∧
    Channel.del cbChannelW true = [.sent (WireMsg.CHANNEL_LAST_MESSAGE 1)] ∧
    Channel.del
        { id := 9, items := some [QItem.endmarker], closed := true,
          receiveclosed := true, remoteerrors := ["a", "b"], executing := false }
        true = [.warned "a", .warned "b"] ∧
    Channel.del emptyChannelW false = [] := by
  refine ⟨?_, ?_, ?_, del_finalizer.2.2 emptyChannelW rfl rfl⟩
  · have := del_finalizer.1 emptyChannelW rfl rfl
    rw [this]; rfl
  · have := del_finalizer.1 cbChannelW rfl rfl
    rw [this]; rfl
  · exact (del_finalizer.2.1 _ true rfl).1

/-! ## Claim C9: the STATUS handler -/

/-- C9: when a STATUS message is received, the gateway replies on the
sender's chosen channel id with a CHANNEL_DATA message whose payload is a
dict with exactly the keys execqsize, numchannels and numexecuting (with
the exec-queue size, the number of live channels, and the number of
executing channels as values), and it never allocates a local channel
object for that id: the factory comes back unchanged. -/
theorem status_received_behavior :
    ∀ (sid : Int) (g : GatewayView) (fac : Factory),
      (STATUS.received sid g fac).2 = fac ∧
      ∃ d : VPairs, (STATUS.received sid g fac).1 = [.CHANNEL_DATA sid (.dict d)] ∧
        d.keys = [strV "execqsize", strV "numchannels", strV "numexecuting"] ∧
        d.toList.map Prod.snd =
          [.int g.execqsize, .int g.channels.length,
           .int (g.channels.countP (fun ch => ch.executing))] := by
  intro sid g fac
  exact ⟨rfl, _, rfl, rfl, rfl⟩
